import Mathlib

/-!
# I2cDisplay: a shallow embedding of `src/I2cDisplay.cpp`

The driver encodes every logical byte for an HD44780 controller behind an
I2C backpack as four transfer bytes (high nibble with ENABLE asserted, high
nibble with ENABLE released, low nibble asserted, low nibble released) and
hands them to the bus in one `I2cWrite` call.

Modelling decisions.

* `int` is a 32 bit twos complement integer.  A value is an `Int`; the
  bitwise operators go through the bit pattern (`toBits`, `ofBits`).
* `char` may be signed or unsigned (implementation defined).  The flag
  `signedChar` selects the platform; conversions to `char` are `toChar`.
* `unsigned char` values are `Nat`; a store into one is `toUChar`.
* The bus functions `I2cOpen`, `I2cWrite`, `I2cClose` live in `../I2C/I2C.h`,
  outside this source file.  They are modelled from the specification as
  calls that are appended to a trace and whose outcome is decided by a
  `Transport` oracle.
* A member function is a function from the system state (object fields and
  trace) to an outcome and a new system state, so that an exception keeps the
  state reached at the throw.
* The program `main` takes its argument vector as a list of C strings (lists of
  `char` values, `argv[0]` included) and yields the exit code, the lines printed
  and the trace.  The destructor runs exactly when the constructor returned.
* `atoi` is `(int) strtol(s, NULL, 10)`: the value saturates at the bounds of
  `long` and its low 32 bits are kept.  `long` has 64 bits on the x64 host and 32
  on the ARM target; the flag `long64` selects the platform.
-/

namespace I2cDisplay

/-! ## C integer arithmetic -/

/-- Bit pattern of an `int`: 32 bit twos complement. -/
def toBits (x : Int) : Nat := (x % 2 ^ 32).toNat

/-- The `int` denoted by a 32 bit pattern (higher bits are dropped). -/
def ofBits (n : Nat) : Int :=
  if n % 2 ^ 32 < 2 ^ 31 then ((n % 2 ^ 32 : Nat) : Int) else ((n % 2 ^ 32 : Nat) : Int) - 2 ^ 32

/-- C `x & y` on `int`. -/
def intAnd (x y : Int) : Int := ofBits (toBits x &&& toBits y)

/-- C `x | y` on `int`. -/
def intOr (x y : Int) : Int := ofBits (toBits x ||| toBits y)

/-- C `x << n` on `int`, as computed by the target compilers (pattern shifted, 32 bits kept). -/
def intShl (x : Int) (n : Nat) : Int := ofBits (toBits x <<< n)

/-- Conversion of an `int` to `unsigned char`. -/
def toUChar (x : Int) : Nat := (x % 256).toNat

/-- Conversion of an `int` to `char`; `signedChar` tells whether plain `char` is signed. -/
def toChar (signedChar : Bool) (x : Int) : Int :=
  if signedChar && decide (128 ≤ x % 256) then x % 256 - 256 else x % 256

/-! ## The bus and the system state -/

/-- One observable call on the outside world. -/
inductive Event where
  | open (bus : String) (address : Nat)
  | write (handle : Int) (data : List Nat)
  | sleep (microseconds : Nat)
  | close (handle : Int)
deriving DecidableEq

/-- The transport writes of a trace, in order: handle and bytes of each `I2cWrite` call. -/
def writes : List Event → List (Int × List Nat)
  | [] => []
  | Event.write h data :: rest => (h, data) :: writes rest
  | _ :: rest => writes rest

/-- Outcome oracle of the bus.  `openResult bus address` is what `I2cOpen` does;
`writeError k handle data` is the message thrown by the `I2cWrite` call that
comes after `k` earlier write calls, or `none` when that call succeeds. -/
structure Transport where
  openResult : String → Nat → Except String Int
  writeError : Nat → Int → List Nat → Option String

/-- Fields of `class CI2cDisplay`. -/
structure CI2cDisplay where
  iI2cFile : Int
  cBackLight : Nat
deriving DecidableEq

/-- System state: the object and the trace of calls made so far. -/
structure Sys where
  obj : CI2cDisplay
  trace : List Event
deriving DecidableEq

/-- A `void` member function that may throw a `string`. -/
abbrev Action := Sys → Except String Unit × Sys

/-- Sequencing `a; b` with exceptions: when `a` throws, `b` does not run. -/
def andThen (a b : Action) : Action := fun s =>
  match a s with
  | (Except.ok _, s') => b s'
  | (Except.error e, s') => (Except.error e, s')

/-- The empty statement. -/
def skip : Action := fun s => (Except.ok (), s)

/-- Loop `for (i = start; i < start + count; ++i) body(i)`. -/
def forLoop (body : Nat → Action) : Nat → Nat → Action
  | _, 0 => skip
  | i, n + 1 => andThen (body i) (forLoop body (i + 1) n)

/-- Modelled from the spec: `I2cWrite` of `../I2C/I2C.h` is not in the source file.
The call hands the first `n` bytes of the buffer to the bus (the attempt is
recorded) and throws when the transport reports a write error. -/
def I2cWrite (io : Transport) (handle : Int) (spData : List Nat) (n : Nat) : Action := fun s =>
  let s' : Sys := { s with trace := s.trace ++ [Event.write handle (spData.take n)] }
  match io.writeError (writes s.trace).length handle (spData.take n) with
  | none => (Except.ok (), s')
  | some e => (Except.error e, s')

/-- Library call `usleep`: a blocking delay, recorded in the trace. -/
def usleep (us : Nat) : Action := fun s =>
  (Except.ok (), { s with trace := s.trace ++ [Event.sleep us] })

/-- Library call `strlen`: number of characters before the first NUL.  A C string
is given by its characters; the terminating NUL is implicit at the end. -/
def strlen (s : List Int) : Nat := (s.takeWhile (fun c => c ≠ 0)).length

/-! ## The driver -/

/-- Constructor `CI2cDisplay::CI2cDisplay`.
Modelled from the spec: `I2cOpen` of `../I2C/I2C.h` returns a handle or throws. -/
def CI2cDisplay.construct (io : Transport) (cAddress : Nat) (trace : List Event) :
    Except String CI2cDisplay × List Event :=
  match io.openResult "1" cAddress with
  | Except.ok h => (Except.ok { iI2cFile := h, cBackLight := 0x00 }, trace ++ [Event.open "1" cAddress])
  | Except.error e => (Except.error e, trace ++ [Event.open "1" cAddress])

/-- Buffer `spData[4]` filled by `WriteCommand` (lines 104 to 108). -/
def WriteCommand.spData (cBackLight : Nat) (c : Int) : List Nat :=
  let spData0 := toUChar (intOr (intOr (intAnd (intShl c 0) 0xf0) cBackLight) 0x04)
  let spData1 := toUChar (intAnd spData0 0xFB)
  let spData2 := toUChar (intOr (intOr (intAnd (intShl c 4) 0xf0) cBackLight) 0x04)
  let spData3 := toUChar (intAnd spData2 0xFB)
  [spData0, spData1, spData2, spData3]

/-- Member `CI2cDisplay::WriteCommand(char c)`: write command in 4 bits mode. -/
def WriteCommand (io : Transport) (c : Int) : Action := fun s =>
  I2cWrite io s.obj.iI2cFile (WriteCommand.spData s.obj.cBackLight c) 4 s

/-- Buffer `spData[4]` filled by `WriteData` (lines 117 to 121). -/
def WriteData.spData (cBackLight : Nat) (c : Int) : List Nat :=
  let spData0 := toUChar (intOr (intOr (intAnd (intShl c 0) 0xf0) cBackLight) 0x05)
  let spData1 := toUChar (intAnd spData0 0xFB)
  let spData2 := toUChar (intOr (intOr (intAnd (intShl c 4) 0xf0) cBackLight) 0x05)
  let spData3 := toUChar (intAnd spData2 0xFB)
  [spData0, spData1, spData2, spData3]

/-- Member `CI2cDisplay::WriteData(char c)`: write data in 4 bits mode. -/
def WriteData (io : Transport) (c : Int) : Action := fun s =>
  I2cWrite io s.obj.iI2cFile (WriteData.spData s.obj.cBackLight c) 4 s

/-- Member `CI2cDisplay::Init`.  The integer literals are converted to `char`
at the calls of `WriteCommand`. -/
def Init (io : Transport) (signedChar : Bool) : Action :=
  andThen (fun s => I2cWrite io s.obj.iI2cFile [0x2C] 1 s) <|
  andThen (usleep 1000) <|
  andThen (fun s => I2cWrite io s.obj.iI2cFile [0x28] 1 s) <|
  andThen (usleep 1000) <|
  andThen (WriteCommand io (toChar signedChar 0x28)) <|
  andThen (WriteCommand io (toChar signedChar 0x0C)) <|
  andThen (WriteCommand io (toChar signedChar 0x06)) <|
  WriteCommand io (toChar signedChar 0x01)

/-- Member `CI2cDisplay::WriteString(const unsigned char cPos, const char * spData)`.
The counter `i` is an `unsigned int`; strings are shorter than `2 ^ 32`, so it
does not wrap and is a `Nat` here.  `strlen` does not change during the loop. -/
def WriteString (io : Transport) (signedChar : Bool) (cPos : Nat) (spData : List Int) : Action :=
  andThen (WriteCommand io (toChar signedChar cPos))
    (forLoop (fun i => WriteData io (spData.getD i 0)) 0 (strlen spData))

/-- Member `CI2cDisplay::SetBackLight(bool bBackLight)`. -/
def SetBackLight (bBackLight : Bool) : Action := fun s =>
  (Except.ok (), { s with obj := { s.obj with cBackLight := if bBackLight then 0x08 else 0x00 } })

/-- Destructor `CI2cDisplay::~CI2cDisplay`.
Modelled from the spec: `I2cClose` of `../I2C/I2C.h` releases the handle, best effort,
and does not throw. -/
def CI2cDisplay.destruct (s : Sys) : Sys :=
  { s with trace := s.trace ++ [Event.close s.obj.iI2cFile] }

/-! ## The program -/

/-- Library call `isspace` in the C locale. -/
def isspace (c : Int) : Bool := decide (c = 32) || (decide (9 ≤ c) && decide (c ≤ 13))

/-- Digit loop of `strtol` in base 10: accumulates decimal digits until the first
other character (mathematical value, before saturation). -/
def strtol.digits : Int → List Int → Int
  | acc, [] => acc
  | acc, c :: rest =>
    if 48 ≤ c ∧ c ≤ 57 then strtol.digits (acc * 10 + (c - 48)) rest else acc

/-- Constant `LONG_MAX`: `long` has 64 bits on the x64 host and 32 bits on the ARM
target; `long64` selects the platform. -/
def LONG_MAX (long64 : Bool) : Int := if long64 then 2 ^ 63 - 1 else 2 ^ 31 - 1

/-- Constant `LONG_MIN`. -/
def LONG_MIN (long64 : Bool) : Int := - LONG_MAX long64 - 1

/-- Library call `strtol(s, NULL, 10)`: leading white space, an optional sign, decimal
digits; a value outside the range of `long` saturates at `LONG_MAX` or `LONG_MIN`. -/
def strtol (long64 : Bool) (s : List Int) : Int :=
  let value : Int :=
    match s.dropWhile isspace with
    | [] => 0
    | c :: rest =>
      if c = 45 then - strtol.digits 0 rest
      else if c = 43 then strtol.digits 0 rest
      else strtol.digits 0 (c :: rest)
  if value > LONG_MAX long64 then LONG_MAX long64
  else if value < LONG_MIN long64 then LONG_MIN long64
  else value

/-- Library call `atoi`: `(int) strtol(s, NULL, 10)`; the conversion of the `long` to
`int` keeps the low 32 bits. -/
def atoi (long64 : Bool) (s : List Int) : Int := ofBits (toBits (strtol long64 s))

/-- C `x + y` on `int` (32 bits kept). -/
def intAdd (x y : Int) : Int := ofBits (toBits (x + y))

/-- The `std::string` made from a C string: the characters before the first NUL. -/
def cstr (s : List Int) : List Int := s.takeWhile (fun c => c ≠ 0)

/-- The argument `cPos` that `main` passes to `WriteString` (line 148 and the
conversion of the `char` to the `unsigned char` parameter at line 149). -/
def main.position (signedChar long64 : Bool) (argv : List (List Int)) : Nat :=
  toUChar (toChar signedChar (intAdd (atoi long64 (argv.getD 1 [])) 0x80))

/-- The statements of `main` between the construction of the display object and the
end of the `try` block (lines 140 to 150).  `argc` is the length of `argv`; the
literals "i" and "1" are the character lists `[0x69]` and `[0x31]`. -/
def main.body (io : Transport) (signedChar long64 : Bool) (argv : List (List Int)) :
    Action :=
  andThen
    (if argv.length = 2 ∧ cstr (argv.getD 1 []) = [0x69] then Init io signedChar else skip)
    (if argv.length > 3 then
      andThen (SetBackLight (decide (cstr (argv.getD 2 []) = [0x31])))
        (WriteString io signedChar (main.position signedChar long64 argv) (argv.getD 3 []))
    else skip)

/-- What a run of the program leaves behind: exit code, lines printed, calls made. -/
structure Run where
  exitCode : Int
  output : List String
  trace : List Event

/-- Function `main`.  When the constructor throws, no object exists and no destructor
runs; otherwise the destructor runs when the `try` block is left, normally or by an
exception.  Every `string` exception is caught and printed; the exit code is 0. -/
def main (io : Transport) (signedChar long64 : Bool) (argv : List (List Int)) : Run :=
  match CI2cDisplay.construct io 0x27 [] with
  | (Except.error msg, t) =>
    { exitCode := 0, output := ["I2C Display - " ++ msg], trace := t }
  | (Except.ok d, t) =>
    match main.body io signedChar long64 argv ⟨d, t⟩ with
    | (Except.ok _, s) =>
      { exitCode := 0, output := [], trace := (CI2cDisplay.destruct s).trace }
    | (Except.error msg, s) =>
      { exitCode := 0, output := ["I2C Display - " ++ msg],
        trace := (CI2cDisplay.destruct s).trace }

/-! ## The specification's wording of the encoding -/

/-- Backlight bit of the specification: 0x08 when on, 0x00 when off. -/
def specBacklight (lit : Bool) : Nat := if lit then 0x08 else 0x00

/-- A byte with bit 2 (ENABLE) cleared. -/
def specClearEnable (x : Nat) : Nat := if x.testBit 2 then x - 0x04 else x

/-- The four transfers of the specification for a byte `b`, backlight bit `bl`
and control bits `control` (0x00 for a command, 0x01 for data). -/
def specTransfers (control bl b : Nat) : List Nat :=
  let high := (b &&& 0xF0) ||| bl ||| control ||| 0x04
  let low := ((b <<< 4) &&& 0xF0) ||| bl ||| control ||| 0x04
  [high, specClearEnable high, low, specClearEnable low]

/-- A transport on which no write ever fails. -/
def NeverFails (io : Transport) : Prop := ∀ k h data, io.writeError k h data = none

/-- A concrete transport: `I2cOpen` returns handle 3 and every write succeeds. -/
def okTransport : Transport :=
  { openResult := fun _ _ => Except.ok 3, writeError := fun _ _ _ => none }

/-- The two transfers of one nibble `k`: ENABLE asserted, then released.  `ctl` is
the constant of the source line (0x04 for a command, 0x05 for data). -/
def pulse (ctl bl k : Nat) : List Nat :=
  let a := toUChar (intOr (intOr ((k * 16 : Nat) : Int) bl) ctl)
  [a, toUChar (intAnd a 0xFB)]

/-- The state after a sequence of `SetBackLight` calls, in call order. -/
def runBackLightCalls (calls : List Bool) (s : Sys) : Sys :=
  calls.foldl (fun st b => (SetBackLight b st).2) s

/-- Two transfer bytes that differ in bit 0 only: `cmd` has it clear, `dat` has it set. -/
def DiffersInRegisterSelect (cmd dat : Nat) : Prop :=
  cmd.testBit 0 = false ∧ dat.testBit 0 = true ∧ dat = cmd ||| 0x01 ∧ dat >>> 1 = cmd >>> 1

instance (cmd dat : Nat) : Decidable (DiffersInRegisterSelect cmd dat) := by
  unfold DiffersInRegisterSelect
  infer_instance

/-- Action `a`, run on an object `o`, leaves the object as it is and appends to the
trace only events that satisfy `P`, whether it returns or throws. -/
def Issues (o : CI2cDisplay) (P : Event → Prop) (a : Action) : Prop :=
  ∀ t : List Event, ∃ ev : List Event,
    (a ⟨o, t⟩).2 = ⟨o, t ++ ev⟩ ∧ ∀ e ∈ ev, P e

/-- The burst `data` consists of the four transfers of the byte `b`: high nibble with
ENABLE asserted, high nibble released, low nibble asserted, low nibble released. -/
def IsNibblePulses (b : Nat) (data : List Nat) : Prop :=
  ∃ t0 t1 t2 t3 : Nat, data = [t0, t1, t2, t3] ∧
    (t0 / 16 = b / 16 ∧ t0.testBit 2 = true) ∧
    (t1 / 16 = b / 16 ∧ t1.testBit 2 = false) ∧
    (t2 / 16 = b % 16 ∧ t2.testBit 2 = true) ∧
    (t3 / 16 = b % 16 ∧ t3.testBit 2 = false)

/-- Every byte of the burst `data` has bit 3 equal to `lit`. -/
def CarriesBacklight (lit : Bool) (data : List Nat) : Prop := ∀ x ∈ data, x.testBit 3 = lit

/-- The handles released by the `I2cClose` calls of a trace, in order. -/
def closes : List Event → List Int
  | [] => []
  | Event.close h :: rest => h :: closes rest
  | _ :: rest => closes rest

/-- A concrete transport: `I2cOpen` returns handle 3, and the write call that comes
after `k` earlier write calls throws `msg`; every other write succeeds. -/
def failAt (k : Nat) (msg : String) : Transport :=
  { openResult := fun _ _ => Except.ok 3,
    writeError := fun j _ _ => if j = k then some msg else none }

/-- One step of a straight-line sequence of bus calls: a write of a burst, or a delay. -/
inductive Step where
  | write (data : List Nat)
  | sleep (us : Nat)

/-- The call made by a step on the handle `h`. -/
def Step.run (io : Transport) (h : Int) : Step → Action
  | Step.write data => I2cWrite io h data data.length
  | Step.sleep us => usleep us

/-- The bursts of the write steps of a script, in order. -/
def bursts : List Step → List (List Nat)
  | [] => []
  | Step.write data :: rest => data :: bursts rest
  | Step.sleep _ :: rest => bursts rest

/-- Running a script: the steps in sequence, stopping at the first throw. -/
def runScript (io : Transport) (h : Int) : List Step → Action
  | [] => skip
  | st :: rest => andThen (Step.run io h st) (runScript io h rest)

/-- The steps of `Init` for an object whose backlight byte is `bl`. -/
def Init.script (signedChar : Bool) (bl : Nat) : List Step :=
  [Step.write [0x2C], Step.sleep 1000, Step.write [0x28], Step.sleep 1000,
    Step.write (WriteCommand.spData bl (toChar signedChar 0x28)),
    Step.write (WriteCommand.spData bl (toChar signedChar 0x0C)),
    Step.write (WriteCommand.spData bl (toChar signedChar 0x06)),
    Step.write (WriteCommand.spData bl (toChar signedChar 0x01))]

/-- The steps of `WriteString` for an object whose backlight byte is `bl` and a text
without NUL. -/
def WriteString.script (signedChar : Bool) (bl cPos : Nat) (spData : List Int) : List Step :=
  Step.write (WriteCommand.spData bl (toChar signedChar cPos)) ::
    spData.map (fun c => Step.write (WriteData.spData bl c))

/-- Actions `a` and `b` do the same on every state whose object is `o`. -/
def EqOn (o : CI2cDisplay) (a b : Action) : Prop := ∀ t : List Event, a ⟨o, t⟩ = b ⟨o, t⟩

/-- The byte decoded from two transfers: data nibble of `x` above data nibble of `y`. -/
def decodeByte (x y : Nat) : Nat := (x &&& 0xF0) ||| (y >>> 4)

/-- The `int` value on the right-hand side of lines 104, 107, 117 and 120, before it
is stored into the `unsigned char` buffer; `ctl` is 0x04 or 0x05, `shift` 0 or 4. -/
def transferValue (ctl : Int) (cBackLight : Nat) (c : Int) (shift : Nat) : Int :=
  intOr (intOr (intAnd (intShl c shift) 0xf0) cBackLight) ctl

/-- A call of a public member function on a constructed display object. -/
inductive Call where
  | init
  | writeString (cPos : Nat) (spData : List Int)
  | setBackLight (bBackLight : Bool)

/-- The member function named by a call. -/
def Call.run (io : Transport) (signedChar : Bool) : Call → Action
  | Call.init => Init io signedChar
  | Call.writeString cPos spData => WriteString io signedChar cPos spData
  | Call.setBackLight b => SetBackLight b

/-- The state after a sequence of calls; a call that throws leaves the state reached
at the throw and the caller goes on with the next call. -/
def runCalls (io : Transport) (signedChar : Bool) (calls : List Call) (s : Sys) : Sys :=
  calls.foldl (fun st c => (Call.run io signedChar c st).2) s

/-- The six bursts of `Initialize()` in the wording of the specification: two raw
bytes, then the command encodings of 0x28, 0x0C, 0x06 and 0x01. -/
def specInitBursts (bl : Nat) : List (List Nat) :=
  [[0x2C], [0x28], specTransfers 0x00 bl 0x28, specTransfers 0x00 bl 0x0C,
    specTransfers 0x00 bl 0x06, specTransfers 0x00 bl 0x01]

/-- The bursts of `WriteText(pos, text)` in the wording of the specification: the
command encoding of `pos`, then the data encoding of each character. -/
def specTextBursts (bl pos : Nat) (text : List Nat) : List (List Nat) :=
  specTransfers 0x00 bl pos :: text.map (fun b => specTransfers 0x01 bl b)

/-- Action `a` keeps the transport handle of the object and appends to the trace only
events that satisfy `P`, whether it returns or throws. -/
def Keeps (P : Event → Prop) (a : Action) : Prop :=
  ∀ s : Sys, ∃ ev : List Event,
    (a s).2.trace = s.trace ++ ev ∧ (a s).2.obj.iI2cFile = s.obj.iI2cFile ∧ ∀ e ∈ ev, P e

/-- An event that is a bus write or a delay (not an open, not a close). -/
def IsWriteOrSleep : Event → Prop
  | Event.write _ _ => True
  | Event.sleep _ => True
  | _ => False

/-- An event that, when it is a bus write, has bit 1 (read/write) clear in every byte. -/
def ReadWriteLow (e : Event) : Prop :=
  ∀ h data, e = Event.write h data → ∀ x ∈ data, x.testBit 1 = false

/-! ## Lemmas on the embedding -/

theorem toBits_ofBits (n : Nat) : toBits (ofBits n) = n % 2 ^ 32 := by
  unfold toBits ofBits
  split <;> omega

theorem ofBits_small (n : Nat) (h : n < 2 ^ 31) : ofBits n = (n : Int) := by
  unfold ofBits
  have hn : n % 2 ^ 32 = n := Nat.mod_eq_of_lt (by omega)
  rw [hn, if_pos h]

theorem and_f0 (x : Nat) : x &&& 0xf0 = x % 256 / 16 * 16 := by
  have h1 : x &&& 0xf0 = (x % 256) &&& 0xf0 := by
    have hmask : (0xf0 : Nat) = (2 ^ 8 - 1) &&& 0xf0 := by decide
    conv_lhs => rw [hmask, ← Nat.and_assoc, Nat.and_pow_two_sub_one_eq_mod]
  have h2 : ∀ m : Nat, m < 256 → m &&& 0xf0 = m / 16 * 16 := by
    set_option maxRecDepth 100000 in decide
  rw [h1, h2 _ (Nat.mod_lt _ (by decide))]

theorem intAnd_f0 (x : Int) : intAnd x 0xf0 = ((toBits x % 256 / 16 * 16 : Nat) : Int) := by
  unfold intAnd
  have h : toBits (0xf0 : Int) = 0xf0 := by decide
  rw [h, and_f0, ofBits_small]
  omega

theorem intShl_zero_nibble (c : Int) :
    toBits (intShl c 0) % 256 / 16 = toBits c % 256 / 16 := by
  unfold intShl
  rw [toBits_ofBits, Nat.shiftLeft_eq]
  unfold toBits
  omega

theorem intShl_four_nibble (c : Int) :
    toBits (intShl c 4) % 256 / 16 = toBits c % 16 := by
  unfold intShl
  rw [toBits_ofBits, Nat.shiftLeft_eq]
  unfold toBits
  omega

/-- The command buffer depends on `c` through its two low nibbles only. -/
theorem WriteCommand_spData_eq (bl : Nat) (c : Int) :
    WriteCommand.spData bl c =
      pulse 0x04 bl (toBits c % 256 / 16) ++ pulse 0x04 bl (toBits c % 16) := by
  unfold WriteCommand.spData pulse
  simp only [intAnd_f0, intShl_zero_nibble, intShl_four_nibble]
  rfl

/-- The data buffer depends on `c` through its two low nibbles only. -/
theorem WriteData_spData_eq (bl : Nat) (c : Int) :
    WriteData.spData bl c =
      pulse 0x05 bl (toBits c % 256 / 16) ++ pulse 0x05 bl (toBits c % 16) := by
  unfold WriteData.spData pulse
  simp only [intAnd_f0, intShl_zero_nibble, intShl_four_nibble]
  rfl

theorem high_nibble_lt (c : Int) : toBits c % 256 / 16 < 16 := by omega

theorem low_nibble_lt (c : Int) : toBits c % 16 < 16 := by omega

theorem I2cWrite_snd (io : Transport) (h : Int) (buf : List Nat) (n : Nat) (s : Sys) :
    (I2cWrite io h buf n s).2 = { s with trace := s.trace ++ [Event.write h (buf.take n)] } := by
  unfold I2cWrite
  cases io.writeError (writes s.trace).length h (List.take n buf) <;> rfl

theorem I2cWrite_ok (io : Transport) (hio : NeverFails io) (h : Int) (buf : List Nat) (n : Nat)
    (s : Sys) :
    I2cWrite io h buf n s =
      (Except.ok (), { s with trace := s.trace ++ [Event.write h (buf.take n)] }) := by
  unfold I2cWrite
  rw [hio]

theorem WriteCommand_snd (io : Transport) (c : Int) (s : Sys) :
    (WriteCommand io c s).2 =
      ⟨s.obj, s.trace ++ [Event.write s.obj.iI2cFile (WriteCommand.spData s.obj.cBackLight c)]⟩ := by
  unfold WriteCommand
  rw [I2cWrite_snd]
  rfl

theorem WriteData_snd (io : Transport) (c : Int) (s : Sys) :
    (WriteData io c s).2 =
      ⟨s.obj, s.trace ++ [Event.write s.obj.iI2cFile (WriteData.spData s.obj.cBackLight c)]⟩ := by
  unfold WriteData
  rw [I2cWrite_snd]
  rfl

theorem WriteCommand_ok (io : Transport) (hio : NeverFails io) (c : Int) (s : Sys) :
    WriteCommand io c s =
      (Except.ok (),
        ⟨s.obj, s.trace ++ [Event.write s.obj.iI2cFile (WriteCommand.spData s.obj.cBackLight c)]⟩) := by
  unfold WriteCommand
  rw [I2cWrite_ok io hio]
  rfl

theorem WriteData_ok (io : Transport) (hio : NeverFails io) (c : Int) (s : Sys) :
    WriteData io c s =
      (Except.ok (),
        ⟨s.obj, s.trace ++ [Event.write s.obj.iI2cFile (WriteData.spData s.obj.cBackLight c)]⟩) := by
  unfold WriteData
  rw [I2cWrite_ok io hio]
  rfl

theorem andThen_ok (a b : Action) (s s' : Sys) (h : a s = (Except.ok (), s')) :
    andThen a b s = b s' := by
  unfold andThen
  rw [h]

theorem writes_append (t u : List Event) : writes (t ++ u) = writes t ++ writes u := by
  induction t with
  | nil => rfl
  | cons e rest ih =>
    cases e <;> simp [writes, ih]

set_option maxRecDepth 100000 in
theorem WriteCommand_spData_byte :
    ∀ sc lit : Bool, ∀ b : Nat, b < 256 →
      WriteCommand.spData (specBacklight lit) (toChar sc b) =
        specTransfers 0x00 (specBacklight lit) b := by
  decide!

set_option maxRecDepth 100000 in
theorem WriteData_spData_byte :
    ∀ sc lit : Bool, ∀ b : Nat, b < 256 →
      WriteData.spData (specBacklight lit) (toChar sc b) =
        specTransfers 0x01 (specBacklight lit) b := by
  decide!

theorem toChar_ne_zero (sc : Bool) (b : Nat) (h0 : 0 < b) (hb : b < 256) : toChar sc b ≠ 0 := by
  unfold toChar
  split <;> omega

theorem strlen_of_nonzero (l : List Int) (h : ∀ c ∈ l, c ≠ 0) : strlen l = l.length := by
  unfold strlen
  induction l with
  | nil => rfl
  | cons c rest ih =>
    have hc : c ≠ 0 := h c (List.mem_cons_self c rest)
    have hrest : ∀ d ∈ rest, d ≠ 0 := fun d hd => h d (List.mem_cons_of_mem c hd)
    rw [List.takeWhile_cons_of_pos (by simpa using hc)]
    simp only [List.length_cons, ih hrest]

theorem forLoop_WriteData_ok (io : Transport) (hio : NeverFails io) (pre rest : List Int)
    (s : Sys) :
    forLoop (fun i => WriteData io ((pre ++ rest).getD i 0)) pre.length rest.length s =
      (Except.ok (),
        ⟨s.obj, s.trace ++ rest.map
          (fun c => Event.write s.obj.iI2cFile (WriteData.spData s.obj.cBackLight c))⟩) := by
  induction rest generalizing pre s with
  | nil => simp [forLoop, skip]
  | cons c rest ih =>
    have hget : (pre ++ c :: rest).getD pre.length 0 = c := by
      rw [List.getD_eq_getElem?_getD, List.getElem?_append_right (Nat.le_refl _)]
      simp
    have hstep := WriteData_ok io hio c s
    have hih := ih (pre ++ [c])
      ⟨s.obj, s.trace ++ [Event.write s.obj.iI2cFile (WriteData.spData s.obj.cBackLight c)]⟩
    simp only [List.append_assoc, List.singleton_append, List.length_append,
      List.length_singleton] at hih
    simp only [List.length_cons, forLoop]
    rw [andThen_ok _ _ _ _ (by rw [hget]; exact hstep), hih]
    simp

theorem pulse_eq :
    ∀ lit : Bool, ∀ k : Nat, k < 16 →
      pulse 0x04 (specBacklight lit) k =
        [k * 16 + specBacklight lit + 4, k * 16 + specBacklight lit] ∧
      pulse 0x05 (specBacklight lit) k =
        [k * 16 + specBacklight lit + 5, k * 16 + specBacklight lit + 1] := by
  decide

/-- Bits of a transfer byte `k * 16 + bl + j`, where `j` collects ENABLE and register select. -/
theorem xfer_bits :
    ∀ lit : Bool, ∀ k : Nat, k < 16 → ∀ j ∈ [0, 1, 4, 5],
      (k * 16 + specBacklight lit + j).testBit 3 = lit ∧
      (k * 16 + specBacklight lit + j).testBit 2 = decide (4 ≤ j) ∧
      (k * 16 + specBacklight lit + j).testBit 1 = false ∧
      (k * 16 + specBacklight lit + j).testBit 0 = decide (j % 2 = 1) ∧
      (k * 16 + specBacklight lit + j) / 16 = k := by
  decide

theorem xfer_pair :
    ∀ lit : Bool, ∀ k : Nat, k < 16 →
      DiffersInRegisterSelect (k * 16 + specBacklight lit + 4) (k * 16 + specBacklight lit + 5) ∧
      DiffersInRegisterSelect (k * 16 + specBacklight lit) (k * 16 + specBacklight lit + 1) := by
  decide

/-- Closed form of the command buffer for an arbitrary `char` value. -/
theorem WriteCommand_spData_normal (lit : Bool) (c : Int) :
    WriteCommand.spData (specBacklight lit) c =
      [toBits c % 256 / 16 * 16 + specBacklight lit + 4,
       toBits c % 256 / 16 * 16 + specBacklight lit,
       toBits c % 16 * 16 + specBacklight lit + 4,
       toBits c % 16 * 16 + specBacklight lit] := by
  rw [WriteCommand_spData_eq, (pulse_eq lit _ (high_nibble_lt c)).1,
    (pulse_eq lit _ (low_nibble_lt c)).1]
  rfl

/-- Closed form of the data buffer for an arbitrary `char` value. -/
theorem WriteData_spData_normal (lit : Bool) (c : Int) :
    WriteData.spData (specBacklight lit) c =
      [toBits c % 256 / 16 * 16 + specBacklight lit + 5,
       toBits c % 256 / 16 * 16 + specBacklight lit + 1,
       toBits c % 16 * 16 + specBacklight lit + 5,
       toBits c % 16 * 16 + specBacklight lit + 1] := by
  rw [WriteData_spData_eq, (pulse_eq lit _ (high_nibble_lt c)).2,
    (pulse_eq lit _ (low_nibble_lt c)).2]
  rfl

theorem toBits_toChar (sc : Bool) (b : Nat) (hb : b < 256) : toBits (toChar sc b) % 256 = b := by
  unfold toBits toChar
  split <;> omega

theorem SetBackLight_snd (lit : Bool) (s : Sys) :
    (SetBackLight lit s).2 = ⟨⟨s.obj.iI2cFile, specBacklight lit⟩, s.trace⟩ := rfl

theorem Issues_I2cWrite (o : CI2cDisplay) (P : Event → Prop) (io : Transport) (buf : List Nat)
    (n : Nat) (hP : P (Event.write o.iI2cFile (buf.take n))) :
    Issues o P (fun s => I2cWrite io s.obj.iI2cFile buf n s) := by
  intro t
  refine ⟨[Event.write o.iI2cFile (buf.take n)], ?_, ?_⟩
  · show (I2cWrite io o.iI2cFile buf n ⟨o, t⟩).2 = _
    rw [I2cWrite_snd]
  · intro e he
    rw [List.mem_singleton] at he
    rw [he]
    exact hP

theorem Issues_usleep (o : CI2cDisplay) (P : Event → Prop) (us : Nat) (hP : P (Event.sleep us)) :
    Issues o P (usleep us) := by
  intro t
  refine ⟨[Event.sleep us], rfl, ?_⟩
  intro e he
  rw [List.mem_singleton] at he
  rw [he]
  exact hP

theorem Issues_skip (o : CI2cDisplay) (P : Event → Prop) : Issues o P skip := by
  intro t
  exact ⟨[], by simp [skip], by simp⟩

theorem Issues_andThen (o : CI2cDisplay) (P : Event → Prop) (a b : Action)
    (ha : Issues o P a) (hb : Issues o P b) : Issues o P (andThen a b) := by
  intro t
  obtain ⟨ev1, h1, p1⟩ := ha t
  obtain ⟨ev2, h2, p2⟩ := hb (t ++ ev1)
  unfold andThen
  rcases hres : a ⟨o, t⟩ with ⟨r, s'⟩
  rw [hres] at h1
  simp only at h1
  subst h1
  cases r with
  | error e => exact ⟨ev1, rfl, p1⟩
  | ok u =>
    refine ⟨ev1 ++ ev2, ?_, ?_⟩
    · simp only [h2, List.append_assoc]
    · intro e he
      rcases List.mem_append.mp he with h | h
      · exact p1 e h
      · exact p2 e h

theorem Issues_forLoop (o : CI2cDisplay) (P : Event → Prop) (body : Nat → Action)
    (hbody : ∀ i, Issues o P (body i)) (i n : Nat) : Issues o P (forLoop body i n) := by
  induction n generalizing i with
  | zero => exact Issues_skip o P
  | succ n ih => exact Issues_andThen o P _ _ (hbody i) (ih (i + 1))

theorem Issues_WriteCommand (o : CI2cDisplay) (P : Event → Prop) (io : Transport) (c : Int)
    (hP : P (Event.write o.iI2cFile (WriteCommand.spData o.cBackLight c))) :
    Issues o P (WriteCommand io c) := by
  intro t
  refine ⟨[Event.write o.iI2cFile (WriteCommand.spData o.cBackLight c)], ?_, ?_⟩
  · rw [WriteCommand_snd]
  · intro e he
    rw [List.mem_singleton] at he
    rw [he]
    exact hP

theorem Issues_WriteData (o : CI2cDisplay) (P : Event → Prop) (io : Transport) (c : Int)
    (hP : P (Event.write o.iI2cFile (WriteData.spData o.cBackLight c))) :
    Issues o P (WriteData io c) := by
  intro t
  refine ⟨[Event.write o.iI2cFile (WriteData.spData o.cBackLight c)], ?_, ?_⟩
  · rw [WriteData_snd]
  · intro e he
    rw [List.mem_singleton] at he
    rw [he]
    exact hP

theorem WriteCommand_spData_backlight (lit : Bool) (c : Int) :
    CarriesBacklight lit (WriteCommand.spData (specBacklight lit) c) := by
  have hi := xfer_bits lit _ (high_nibble_lt c)
  have lo := xfer_bits lit _ (low_nibble_lt c)
  rw [WriteCommand_spData_normal]
  intro x hx
  simp only [List.mem_cons, List.mem_nil_iff, or_false] at hx
  rcases hx with rfl | rfl | rfl | rfl
  · exact (hi 4 (by decide)).1
  · exact (hi 0 (by decide)).1
  · exact (lo 4 (by decide)).1
  · exact (lo 0 (by decide)).1

theorem WriteData_spData_backlight (lit : Bool) (c : Int) :
    CarriesBacklight lit (WriteData.spData (specBacklight lit) c) := by
  have hi := xfer_bits lit _ (high_nibble_lt c)
  have lo := xfer_bits lit _ (low_nibble_lt c)
  rw [WriteData_spData_normal]
  intro x hx
  simp only [List.mem_cons, List.mem_nil_iff, or_false] at hx
  rcases hx with rfl | rfl | rfl | rfl
  · exact (hi 5 (by decide)).1
  · exact (hi 1 (by decide)).1
  · exact (lo 5 (by decide)).1
  · exact (lo 1 (by decide)).1

theorem runBackLightCalls_frame (calls : List Bool) (s : Sys) :
    (runBackLightCalls calls s).obj.iI2cFile = s.obj.iI2cFile ∧
    (runBackLightCalls calls s).trace = s.trace := by
  unfold runBackLightCalls
  induction calls generalizing s with
  | nil => exact ⟨rfl, rfl⟩
  | cons b rest ih =>
    rw [List.foldl_cons]
    have h := ih (SetBackLight b s).2
    rw [SetBackLight_snd] at h ⊢
    exact h

theorem runBackLightCalls_last (calls : List Bool) (last : Bool) (s : Sys) :
    runBackLightCalls (calls ++ [last]) s = ⟨⟨s.obj.iI2cFile, specBacklight last⟩, s.trace⟩ := by
  have h := runBackLightCalls_frame calls s
  unfold runBackLightCalls at h ⊢
  rw [List.foldl_append, List.foldl_cons, List.foldl_nil, SetBackLight_snd, h.1, h.2]

theorem andThen_skip (a : Action) : andThen a skip = a := by
  funext s
  unfold andThen skip
  rcases h : a s with ⟨r, s'⟩
  cases r <;> rfl

theorem andThen_error (a b : Action) (s s' : Sys) (e : String) (h : a s = (Except.error e, s')) :
    andThen a b s = (Except.error e, s') := by
  unfold andThen
  rw [h]

theorem writes_snoc_write (t : List Event) (h : Int) (data : List Nat) :
    writes (t ++ [Event.write h data]) = writes t ++ [(h, data)] := by
  rw [writes_append]
  rfl

theorem writes_snoc_sleep (t : List Event) (us : Nat) :
    writes (t ++ [Event.sleep us]) = writes t := by
  rw [writes_append]
  simp [writes]

theorem I2cWrite_of_none (io : Transport) (h : Int) (buf : List Nat) (n : Nat) (s : Sys)
    (hn : io.writeError (writes s.trace).length h (buf.take n) = none) :
    I2cWrite io h buf n s =
      (Except.ok (), { s with trace := s.trace ++ [Event.write h (buf.take n)] }) := by
  unfold I2cWrite
  rw [hn]

theorem I2cWrite_of_some (io : Transport) (h : Int) (buf : List Nat) (n : Nat) (s : Sys)
    (e : String) (hn : io.writeError (writes s.trace).length h (buf.take n) = some e) :
    I2cWrite io h buf n s =
      (Except.error e, { s with trace := s.trace ++ [Event.write h (buf.take n)] }) := by
  unfold I2cWrite
  rw [hn]

/-- A script aborts at its first failing write: when the writes before the one at
index `k` succeed and that one throws `e`, the script throws `e`, the object is
unchanged and the writes attempted are the first `k + 1` bursts. -/
theorem runScript_abort_at (io : Transport) (h : Int) (steps : List Step) (k : Nat) (e : String)
    (s : Sys) (hk : k < (bursts steps).length)
    (hprev : ∀ j, j < k →
      io.writeError ((writes s.trace).length + j) h ((bursts steps).getD j []) = none)
    (hfail : io.writeError ((writes s.trace).length + k) h ((bursts steps).getD k []) = some e) :
    (runScript io h steps s).1 = Except.error e ∧
    (runScript io h steps s).2.obj = s.obj ∧
    writes (runScript io h steps s).2.trace =
      writes s.trace ++ ((bursts steps).take (k + 1)).map (fun d => (h, d)) := by
  induction steps generalizing k s with
  | nil => simp [bursts] at hk
  | cons st rest ih =>
    cases st with
    | sleep us =>
      have hstep : Step.run io h (Step.sleep us) s =
          (Except.ok (), { s with trace := s.trace ++ [Event.sleep us] }) := rfl
      have hw : writes ({ s with trace := s.trace ++ [Event.sleep us] } : Sys).trace =
          writes s.trace := writes_snoc_sleep _ _
      have := ih k { s with trace := s.trace ++ [Event.sleep us] } hk
        (by intro j hj; rw [hw]; exact hprev j hj) (by rw [hw]; exact hfail)
      simp only [runScript, bursts]
      rw [andThen_ok _ _ _ _ hstep]
      rw [hw] at this
      exact this
    | write d =>
      have htake : d.take d.length = d := List.take_length d
      cases k with
      | zero =>
        have hf : io.writeError (writes s.trace).length h (d.take d.length) = some e := by
          rw [htake]
          simpa [bursts] using hfail
        have hstep := I2cWrite_of_some io h d d.length s e hf
        simp only [runScript, bursts]
        rw [andThen_error _ _ _ _ _ (by exact hstep)]
        refine ⟨rfl, rfl, ?_⟩
        simp only [htake, writes_snoc_write]
        simp
      | succ k =>
        have h0 : io.writeError (writes s.trace).length h (d.take d.length) = none := by
          rw [htake]
          simpa [bursts] using hprev 0 (Nat.succ_pos k)
        have hstep := I2cWrite_of_none io h d d.length s h0
        rw [htake] at hstep
        have hw : writes ({ s with trace := s.trace ++ [Event.write h d] } : Sys).trace =
            writes s.trace ++ [(h, d)] := writes_snoc_write _ _ _
        have hlen : (writes ({ s with trace := s.trace ++ [Event.write h d] } : Sys).trace).length
            = (writes s.trace).length + 1 := by rw [hw]; simp
        have := ih k { s with trace := s.trace ++ [Event.write h d] }
          (by simpa [bursts] using hk)
          (by
            intro j hj
            rw [hlen]
            have := hprev (j + 1) (Nat.succ_lt_succ hj)
            simp only [bursts, List.getD_cons_succ] at this
            rw [Nat.add_assoc, Nat.add_comm 1 j]
            exact this)
          (by
            rw [hlen]
            have := hfail
            simp only [bursts, List.getD_cons_succ] at this
            rw [Nat.add_assoc, Nat.add_comm 1 k]
            exact this)
        simp only [runScript, bursts]
        rw [andThen_ok _ _ _ _ (by exact hstep)]
        refine ⟨this.1, this.2.1, ?_⟩
        rw [this.2.2, hw]
        simp

theorem Step_run_obj (io : Transport) (h : Int) (st : Step) (s : Sys) :
    (Step.run io h st s).2.obj = s.obj := by
  cases st with
  | write d =>
    show (I2cWrite io h d d.length s).2.obj = s.obj
    rw [I2cWrite_snd]
  | sleep us => rfl

theorem EqOn_andThen (o : CI2cDisplay) (a a' b b' : Action) (ha : EqOn o a a')
    (hpres : ∀ t, (a' ⟨o, t⟩).2.obj = o) (hb : EqOn o b b') :
    EqOn o (andThen a b) (andThen a' b') := by
  intro t
  unfold andThen
  rw [ha t]
  have hp := hpres t
  rcases h : a' ⟨o, t⟩ with ⟨r, s'⟩
  rw [h] at hp
  obtain ⟨o', t'⟩ := s'
  simp only at hp
  subst hp
  cases r with
  | error e => rfl
  | ok u => exact hb t'

theorem Init_eq_script (io : Transport) (sc : Bool) (o : CI2cDisplay) :
    EqOn o (Init io sc) (runScript io o.iI2cFile (Init.script sc o.cBackLight)) := by
  unfold Init Init.script
  simp only [runScript, andThen_skip]
  refine EqOn_andThen o _ _ _ _ (fun t => rfl) (fun t => Step_run_obj _ _ _ _) ?_
  refine EqOn_andThen o _ _ _ _ (fun t => rfl) (fun t => Step_run_obj _ _ _ _) ?_
  refine EqOn_andThen o _ _ _ _ (fun t => rfl) (fun t => Step_run_obj _ _ _ _) ?_
  refine EqOn_andThen o _ _ _ _ (fun t => rfl) (fun t => Step_run_obj _ _ _ _) ?_
  refine EqOn_andThen o _ _ _ _ (fun t => rfl) (fun t => Step_run_obj _ _ _ _) ?_
  refine EqOn_andThen o _ _ _ _ (fun t => rfl) (fun t => Step_run_obj _ _ _ _) ?_
  refine EqOn_andThen o _ _ _ _ (fun t => rfl) (fun t => Step_run_obj _ _ _ _) ?_
  exact fun t => rfl

theorem forLoop_eq_script (io : Transport) (o : CI2cDisplay) (pre rest : List Int) :
    EqOn o (forLoop (fun i => WriteData io ((pre ++ rest).getD i 0)) pre.length rest.length)
      (runScript io o.iI2cFile (rest.map (fun c => Step.write (WriteData.spData o.cBackLight c)))) := by
  induction rest generalizing pre with
  | nil => exact fun t => rfl
  | cons c rest ih =>
    have hget : (pre ++ c :: rest).getD pre.length 0 = c := by
      rw [List.getD_eq_getElem?_getD, List.getElem?_append_right (Nat.le_refl _)]
      simp
    have hih := ih (pre ++ [c])
    simp only [List.append_assoc, List.singleton_append, List.length_append,
      List.length_singleton] at hih
    simp only [List.length_cons, forLoop, List.map_cons, runScript]
    refine EqOn_andThen o _ _ _ _ ?_ (fun t => Step_run_obj _ _ _ _) hih
    intro t
    rw [hget]
    rfl

theorem WriteString_eq_script (io : Transport) (sc : Bool) (o : CI2cDisplay) (cPos : Nat)
    (spData : List Int) (hnz : ∀ c ∈ spData, c ≠ 0) :
    EqOn o (WriteString io sc cPos spData)
      (runScript io o.iI2cFile (WriteString.script sc o.cBackLight cPos spData)) := by
  unfold WriteString WriteString.script
  rw [strlen_of_nonzero spData hnz]
  simp only [runScript]
  refine EqOn_andThen o _ _ _ _ (fun t => rfl) (fun t => Step_run_obj _ _ _ _) ?_
  have h := forLoop_eq_script io o [] spData
  simpa using h

theorem bursts_map_write (f : Int → List Nat) (l : List Int) :
    bursts (l.map (fun c => Step.write (f c))) = l.map f := by
  induction l with
  | nil => rfl
  | cons c rest ih => simp [bursts, ih]

/-- A script on a transport that never fails returns normally after all its writes. -/
theorem runScript_ok (io : Transport) (hio : NeverFails io) (h : Int) (steps : List Step)
    (s : Sys) :
    (runScript io h steps s).1 = Except.ok () ∧
    (runScript io h steps s).2.obj = s.obj ∧
    writes (runScript io h steps s).2.trace =
      writes s.trace ++ (bursts steps).map (fun d => (h, d)) := by
  induction steps generalizing s with
  | nil => simp [runScript, skip, bursts]
  | cons st rest ih =>
    cases st with
    | sleep us =>
      have hstep : Step.run io h (Step.sleep us) s =
          (Except.ok (), { s with trace := s.trace ++ [Event.sleep us] }) := rfl
      have := ih { s with trace := s.trace ++ [Event.sleep us] }
      simp only [runScript, bursts]
      rw [andThen_ok _ _ _ _ hstep]
      rw [writes_snoc_sleep] at this
      exact this
    | write d =>
      have hstep := I2cWrite_of_none io h d d.length s (hio _ _ _)
      rw [List.take_length] at hstep
      have := ih { s with trace := s.trace ++ [Event.write h d] }
      simp only [runScript, bursts]
      rw [andThen_ok _ _ _ _ (by exact hstep)]
      refine ⟨this.1, this.2.1, ?_⟩
      rw [this.2.2, writes_snoc_write]
      simp

/-- On any transport the writes of a script are an initial part of its bursts: at
least one when the script has a write, all of them when no write fails. -/
theorem runScript_prefix (io : Transport) (h : Int) (steps : List Step) (s : Sys) :
    ∃ n : Nat, n ≤ (bursts steps).length ∧ ((bursts steps) ≠ [] → 1 ≤ n) ∧
      (runScript io h steps s).2.obj = s.obj ∧
      writes (runScript io h steps s).2.trace =
        writes s.trace ++ ((bursts steps).take n).map (fun d => (h, d)) ∧
      (NeverFails io → n = (bursts steps).length) := by
  induction steps generalizing s with
  | nil => exact ⟨0, by simp [bursts], by simp [bursts], rfl, by simp [runScript, skip], by simp [bursts]⟩
  | cons st rest ih =>
    cases st with
    | sleep us =>
      have hstep : Step.run io h (Step.sleep us) s =
          (Except.ok (), { s with trace := s.trace ++ [Event.sleep us] }) := rfl
      obtain ⟨n, hn, hpos, hobj, hw, hall⟩ := ih { s with trace := s.trace ++ [Event.sleep us] }
      refine ⟨n, hn, hpos, ?_, ?_, hall⟩
      · simp only [runScript]
        rw [andThen_ok _ _ _ _ hstep]
        exact hobj
      · simp only [runScript, bursts]
        rw [andThen_ok _ _ _ _ hstep, hw, writes_snoc_sleep]
    | write d =>
      cases hres : io.writeError (writes s.trace).length h (d.take d.length) with
      | some e =>
        have hstep := I2cWrite_of_some io h d d.length s e hres
        rw [List.take_length] at hstep
        refine ⟨1, by simp [bursts], fun _ => Nat.le_refl 1, ?_, ?_, ?_⟩
        · simp only [runScript]
          rw [andThen_error _ _ _ _ _ (by exact hstep)]
        · simp only [runScript, bursts]
          rw [andThen_error _ _ _ _ _ (by exact hstep)]
          simp only [writes_snoc_write]
          simp
        · intro hio
          rw [hio] at hres
          cases hres
      | none =>
        have hstep := I2cWrite_of_none io h d d.length s hres
        rw [List.take_length] at hstep
        obtain ⟨n, hn, _, hobj, hw, hall⟩ :=
          ih { s with trace := s.trace ++ [Event.write h d] }
        refine ⟨n + 1, by simpa [bursts] using hn, fun _ => Nat.le_add_left 1 n, ?_, ?_, ?_⟩
        · simp only [runScript]
          rw [andThen_ok _ _ _ _ (by exact hstep)]
          exact hobj
        · simp only [runScript, bursts]
          rw [andThen_ok _ _ _ _ (by exact hstep), hw, writes_snoc_write]
          simp
        · intro hio
          simp only [bursts, List.length_cons]
          rw [hall hio]

theorem Init_script_bursts (sc lit : Bool) :
    bursts (Init.script sc (specBacklight lit)) = specInitBursts (specBacklight lit) := by
  have e28 := WriteCommand_spData_byte sc lit 0x28 (by decide)
  have e0C := WriteCommand_spData_byte sc lit 0x0C (by decide)
  have e06 := WriteCommand_spData_byte sc lit 0x06 (by decide)
  have e01 := WriteCommand_spData_byte sc lit 0x01 (by decide)
  simp only [Nat.cast_ofNat, Nat.cast_one] at e28 e0C e06 e01
  simp only [Init.script, bursts, specInitBursts, e28, e0C, e06, e01]

theorem WriteString_script_bursts (sc lit : Bool) (pos : Nat) (hpos : pos < 256)
    (text : List Nat) (htext : ∀ b ∈ text, b < 256) :
    bursts (WriteString.script sc (specBacklight lit) pos
        (text.map (fun b : Nat => toChar sc (b : Int)))) =
      specTextBursts (specBacklight lit) pos text := by
  unfold WriteString.script specTextBursts
  simp only [bursts]
  rw [bursts_map_write (fun c => WriteData.spData (specBacklight lit) c)]
  rw [WriteCommand_spData_byte sc lit pos hpos, List.map_map]
  congr 1
  apply List.map_congr_left
  intro b hb
  simp only [Function.comp]
  rw [WriteData_spData_byte sc lit b (htext b hb)]

theorem Issues_Init (o : CI2cDisplay) (P : Event → Prop) (io : Transport) (sc : Bool)
    (hraw1 : P (Event.write o.iI2cFile [0x2C])) (hraw2 : P (Event.write o.iI2cFile [0x28]))
    (hsleep : P (Event.sleep 1000))
    (hcmd : ∀ c : Int, P (Event.write o.iI2cFile (WriteCommand.spData o.cBackLight c))) :
    Issues o P (Init io sc) := by
  unfold Init
  refine Issues_andThen _ _ _ _ (Issues_I2cWrite _ _ io _ _ hraw1) ?_
  refine Issues_andThen _ _ _ _ (Issues_usleep _ _ _ hsleep) ?_
  refine Issues_andThen _ _ _ _ (Issues_I2cWrite _ _ io _ _ hraw2) ?_
  refine Issues_andThen _ _ _ _ (Issues_usleep _ _ _ hsleep) ?_
  refine Issues_andThen _ _ _ _ (Issues_WriteCommand _ _ io _ (hcmd _)) ?_
  refine Issues_andThen _ _ _ _ (Issues_WriteCommand _ _ io _ (hcmd _)) ?_
  exact Issues_andThen _ _ _ _ (Issues_WriteCommand _ _ io _ (hcmd _))
    (Issues_WriteCommand _ _ io _ (hcmd _))

theorem Issues_WriteString (o : CI2cDisplay) (P : Event → Prop) (io : Transport) (sc : Bool)
    (cPos : Nat) (spData : List Int)
    (hcmd : ∀ c : Int, P (Event.write o.iI2cFile (WriteCommand.spData o.cBackLight c)))
    (hdat : ∀ c : Int, P (Event.write o.iI2cFile (WriteData.spData o.cBackLight c))) :
    Issues o P (WriteString io sc cPos spData) := by
  unfold WriteString
  exact Issues_andThen _ _ _ _ (Issues_WriteCommand _ _ io _ (hcmd _))
    (Issues_forLoop _ _ _ (fun _ => Issues_WriteData _ _ io _ (hdat _)) 0 _)

theorem Init_obj (io : Transport) (sc : Bool) (s : Sys) : (Init io sc s).2.obj = s.obj := by
  obtain ⟨ev, h, _⟩ := Issues_Init s.obj (fun _ => True) io sc trivial trivial trivial
    (fun _ => trivial) s.trace
  have hs : (⟨s.obj, s.trace⟩ : Sys) = s := rfl
  rw [hs] at h
  rw [h]

theorem WriteString_obj (io : Transport) (sc : Bool) (cPos : Nat) (spData : List Int) (s : Sys) :
    (WriteString io sc cPos spData s).2.obj = s.obj := by
  obtain ⟨ev, h, _⟩ := Issues_WriteString s.obj (fun _ => True) io sc cPos spData
    (fun _ => trivial) (fun _ => trivial) s.trace
  have hs : (⟨s.obj, s.trace⟩ : Sys) = s := rfl
  rw [hs] at h
  rw [h]

theorem Keeps_of_Issues (P : Event → Prop) (a : Action) (h : ∀ o, Issues o P a) : Keeps P a := by
  intro s
  obtain ⟨ev, he, hp⟩ := h s.obj s.trace
  have hs : (⟨s.obj, s.trace⟩ : Sys) = s := rfl
  rw [hs] at he
  exact ⟨ev, by rw [he], by rw [he], hp⟩

theorem Keeps_skip (P : Event → Prop) : Keeps P skip := by
  intro s
  exact ⟨[], by simp [skip], rfl, by simp⟩

theorem Keeps_SetBackLight (P : Event → Prop) (b : Bool) : Keeps P (SetBackLight b) := by
  intro s
  exact ⟨[], by simp [SetBackLight], rfl, by simp⟩

theorem Keeps_andThen (P : Event → Prop) (a b : Action) (ha : Keeps P a) (hb : Keeps P b) :
    Keeps P (andThen a b) := by
  intro s
  obtain ⟨ev1, h1, g1, p1⟩ := ha s
  unfold andThen
  rcases hres : a s with ⟨r, s'⟩
  rw [hres] at h1 g1
  simp only at h1 g1
  cases r with
  | error e => exact ⟨ev1, h1, g1, p1⟩
  | ok u =>
    obtain ⟨ev2, h2, g2, p2⟩ := hb s'
    refine ⟨ev1 ++ ev2, ?_, ?_, ?_⟩
    · simp only [h2, h1, List.append_assoc]
    · simp only [g2, g1]
    · intro e he
      rcases List.mem_append.mp he with h | h
      · exact p1 e h
      · exact p2 e h

theorem Keeps_main_body (P : Event → Prop) (io : Transport) (sc l64 : Bool)
    (argv : List (List Int)) (hw : ∀ h data, P (Event.write h data))
    (hs : ∀ us, P (Event.sleep us)) : Keeps P (main.body io sc l64 argv) := by
  unfold main.body
  refine Keeps_andThen P _ _ ?_ ?_
  · split
    · exact Keeps_of_Issues P _ (fun o =>
        Issues_Init o P io sc (hw _ _) (hw _ _) (hs _) (fun _ => hw _ _))
    · exact Keeps_skip P
  · split
    · exact Keeps_andThen P _ _ (Keeps_SetBackLight P _)
        (Keeps_of_Issues P _ (fun o =>
          Issues_WriteString o P io sc _ _ (fun _ => hw _ _) (fun _ => hw _ _)))
    · exact Keeps_skip P

theorem closes_append (t u : List Event) : closes (t ++ u) = closes t ++ closes u := by
  induction t with
  | nil => rfl
  | cons e rest ih =>
    cases e <;> simp [closes, ih]

theorem closes_of_writeOrSleep (ev : List Event) (h : ∀ e ∈ ev, IsWriteOrSleep e) :
    closes ev = [] := by
  induction ev with
  | nil => rfl
  | cons e rest ih =>
    have he := h e (List.mem_cons_self e rest)
    have hrest := ih (fun x hx => h x (List.mem_cons_of_mem e hx))
    cases e <;> simp_all [closes, IsWriteOrSleep]

theorem main_trace_of_open (io : Transport) (sc l64 : Bool) (argv : List (List Int)) (h : Int)
    (hopen : io.openResult "1" 0x27 = Except.ok h) :
    (main io sc l64 argv).trace =
      (CI2cDisplay.destruct
        (main.body io sc l64 argv ⟨⟨h, 0x00⟩, [Event.open "1" 0x27]⟩).2).trace := by
  unfold main CI2cDisplay.construct
  rw [hopen]
  simp only [List.nil_append]
  rcases hres : main.body io sc l64 argv ⟨⟨h, 0x00⟩, [Event.open "1" 0x27]⟩ with ⟨r, s⟩
  cases r <;> rfl

theorem main_trace_of_no_open (io : Transport) (sc l64 : Bool) (argv : List (List Int)) (msg : String)
    (hopen : io.openResult "1" 0x27 = Except.error msg) :
    (main io sc l64 argv).trace = [Event.open "1" 0x27] ∧
    (main io sc l64 argv).output = ["I2C Display - " ++ msg] := by
  unfold main CI2cDisplay.construct
  rw [hopen]
  exact ⟨rfl, rfl⟩

theorem main_exitCode (io : Transport) (sc l64 : Bool) (argv : List (List Int)) :
    (main io sc l64 argv).exitCode = 0 := by
  unfold main
  rcases hc : CI2cDisplay.construct io 0x27 [] with ⟨r, t⟩
  cases r with
  | error msg => rfl
  | ok d =>
    simp only
    rcases hres : main.body io sc l64 argv ⟨d, t⟩ with ⟨r', s⟩
    cases r' <;> rfl

theorem WriteCommand_spData_readWrite (lit : Bool) (c : Int) :
    ∀ x ∈ WriteCommand.spData (specBacklight lit) c, x.testBit 1 = false := by
  have hi := xfer_bits lit _ (high_nibble_lt c)
  have lo := xfer_bits lit _ (low_nibble_lt c)
  rw [WriteCommand_spData_normal]
  intro x hx
  simp only [List.mem_cons, List.mem_nil_iff, or_false] at hx
  rcases hx with rfl | rfl | rfl | rfl
  · exact (hi 4 (by decide)).2.2.1
  · exact (hi 0 (by decide)).2.2.1
  · exact (lo 4 (by decide)).2.2.1
  · exact (lo 0 (by decide)).2.2.1

theorem WriteData_spData_readWrite (lit : Bool) (c : Int) :
    ∀ x ∈ WriteData.spData (specBacklight lit) c, x.testBit 1 = false := by
  have hi := xfer_bits lit _ (high_nibble_lt c)
  have lo := xfer_bits lit _ (low_nibble_lt c)
  rw [WriteData_spData_normal]
  intro x hx
  simp only [List.mem_cons, List.mem_nil_iff, or_false] at hx
  rcases hx with rfl | rfl | rfl | rfl
  · exact (hi 5 (by decide)).2.2.1
  · exact (hi 1 (by decide)).2.2.1
  · exact (lo 5 (by decide)).2.2.1
  · exact (lo 1 (by decide)).2.2.1

theorem readWriteLow_write (h : Int) (data : List Nat) (hd : ∀ x ∈ data, x.testBit 1 = false) :
    ReadWriteLow (Event.write h data) := by
  intro h' data' he x hx
  simp only [Event.write.injEq] at he
  rw [← he.2] at hx
  exact hd x hx

theorem readWriteLow_sleep (us : Nat) : ReadWriteLow (Event.sleep us) := by
  intro h data he
  cases he

theorem trace_of_issues (o : CI2cDisplay) (P : Event → Prop) (a : Action) (t : List Event)
    (h : Issues o P a) : ∃ ev, (a ⟨o, t⟩).2.trace = t ++ ev ∧ ∀ e ∈ ev, P e := by
  obtain ⟨ev, he, hp⟩ := h t
  exact ⟨ev, by rw [he], hp⟩

theorem main_position_eq (sc l64 : Bool) (argv : List (List Int)) :
    main.position sc l64 argv = ((atoi l64 (argv.getD 1 []) + 0x80) % 256).toNat := by
  unfold main.position toUChar toChar intAdd ofBits toBits
  generalize atoi l64 (argv.getD 1 []) = x
  cases sc
  · simp only [Bool.false_and, Bool.false_eq_true, if_false]
    split_ifs <;> omega
  · simp only [Bool.true_and, decide_eq_true_eq]
    split_ifs <;> omega

theorem position_bits : ∀ m : Nat, m < 128 →
    m + 0x80 = 0x80 ||| m ∧ (m + 0x80).testBit 7 = true ∧ m + 0x80 < 256 := by
  decide

theorem WriteString_first_write (io : Transport) (sc : Bool) (o : CI2cDisplay) (cPos : Nat)
    (spData : List Int) (t : List Event) :
    ∃ ev, (WriteString io sc cPos spData ⟨o, t⟩).2.trace =
      t ++ Event.write o.iI2cFile (WriteCommand.spData o.cBackLight (toChar sc cPos)) :: ev := by
  unfold WriteString andThen
  have hsnd := WriteCommand_snd io (toChar sc cPos) ⟨o, t⟩
  rcases hres : WriteCommand io (toChar sc cPos) ⟨o, t⟩ with ⟨r, s'⟩
  rw [hres] at hsnd
  simp only at hsnd
  subst hsnd
  cases r with
  | error e => exact ⟨[], rfl⟩
  | ok u =>
    obtain ⟨ev, he, _⟩ := Issues_forLoop o (fun _ => True)
      (fun i => WriteData io (spData.getD i 0))
      (fun i => Issues_WriteData o _ io _ trivial) 0 (strlen spData)
      (t ++ [Event.write o.iI2cFile (WriteCommand.spData o.cBackLight (toChar sc cPos))])
    refine ⟨ev, ?_⟩
    simp only [he, List.append_assoc, List.singleton_append]

theorem main_body_of_three_args (io : Transport) (sc l64 : Bool) (prog posArg flag text : List Int)
    (more : List (List Int)) (s : Sys) :
    main.body io sc l64 (prog :: posArg :: flag :: text :: more) s =
      WriteString io sc (main.position sc l64 (prog :: posArg :: flag :: text :: more)) text
        (SetBackLight (decide (cstr flag = [0x31])) s).2 := by
  unfold main.body
  have h2 : ¬ ((prog :: posArg :: flag :: text :: more).length = 2 ∧
      cstr ((prog :: posArg :: flag :: text :: more).getD 1 []) = [0x69]) := by
    simp only [List.length_cons]
    omega
  have h3 : (prog :: posArg :: flag :: text :: more).length > 3 := by
    simp only [List.length_cons]
    omega
  rw [if_neg h2, if_pos h3]
  rfl

set_option maxRecDepth 100000 in
theorem decode_xfer :
    ∀ lit : Bool, ∀ b : Nat, b < 256 → ∀ j ∈ [0, 1, 4, 5],
      decodeByte (b / 16 * 16 + specBacklight lit + j)
        (b % 16 * 16 + specBacklight lit + j) = b := by
  decide!

theorem nibbles_of_toChar (sc : Bool) (b : Nat) (hb : b < 256) :
    toBits (toChar sc b) % 256 / 16 = b / 16 ∧ toBits (toChar sc b) % 16 = b % 16 := by
  have h := toBits_toChar sc b hb
  constructor
  · rw [h]
  · omega

theorem WriteCommand_spData_decode (sc lit : Bool) (b : Nat) (hb : b < 256) :
    ∃ t0 t1 t2 t3 : Nat,
      WriteCommand.spData (specBacklight lit) (toChar sc b) = [t0, t1, t2, t3] ∧
      decodeByte t0 t2 = b ∧ decodeByte t1 t3 = b := by
  have hn := nibbles_of_toChar sc b hb
  refine ⟨_, _, _, _, WriteCommand_spData_normal lit (toChar sc b), ?_, ?_⟩
  · rw [hn.1, hn.2]
    exact decode_xfer lit b hb 4 (by decide)
  · rw [hn.1, hn.2]
    exact decode_xfer lit b hb 0 (by decide)

theorem WriteData_spData_decode (sc lit : Bool) (b : Nat) (hb : b < 256) :
    ∃ t0 t1 t2 t3 : Nat,
      WriteData.spData (specBacklight lit) (toChar sc b) = [t0, t1, t2, t3] ∧
      decodeByte t0 t2 = b ∧ decodeByte t1 t3 = b := by
  have hn := nibbles_of_toChar sc b hb
  refine ⟨_, _, _, _, WriteData_spData_normal lit (toChar sc b), ?_, ?_⟩
  · rw [hn.1, hn.2]
    exact decode_xfer lit b hb 5 (by decide)
  · rw [hn.1, hn.2]
    exact decode_xfer lit b hb 1 (by decide)

theorem transferValue_range :
    ∀ lit : Bool, ∀ k : Nat, k < 16 → ∀ ctl ∈ ([4, 5] : List Int),
      0 ≤ intOr (intOr ((k * 16 : Nat) : Int) (specBacklight lit : Nat)) ctl ∧
      intOr (intOr ((k * 16 : Nat) : Int) (specBacklight lit : Nat)) ctl ≤ 255 ∧
      0 ≤ intAnd (toUChar (intOr (intOr ((k * 16 : Nat) : Int) (specBacklight lit : Nat)) ctl) : Nat)
        0xFB ∧
      intAnd (toUChar (intOr (intOr ((k * 16 : Nat) : Int) (specBacklight lit : Nat)) ctl) : Nat)
        0xFB ≤ 255 := by
  decide

theorem toUChar_of_range (v : Int) (h0 : 0 ≤ v) (h1 : v ≤ 255) : ((toUChar v : Nat) : Int) = v := by
  unfold toUChar
  omega

theorem runCalls_invariant (io : Transport) (sc : Bool) (calls : List Call) (s : Sys)
    (hbl : s.obj.cBackLight = 0x00 ∨ s.obj.cBackLight = 0x08) :
    ((runCalls io sc calls s).obj.cBackLight = 0x00 ∨
      (runCalls io sc calls s).obj.cBackLight = 0x08) ∧
    (runCalls io sc calls s).obj.iI2cFile = s.obj.iI2cFile := by
  unfold runCalls
  induction calls generalizing s with
  | nil => exact ⟨hbl, rfl⟩
  | cons c rest ih =>
    rw [List.foldl_cons]
    cases c with
    | init =>
      have ho : (Call.run io sc Call.init s).2.obj = s.obj := Init_obj io sc s
      have := ih (Call.run io sc Call.init s).2 (by rw [ho]; exact hbl)
      rw [ho] at this
      exact this
    | writeString cPos spData =>
      have ho : (Call.run io sc (Call.writeString cPos spData) s).2.obj = s.obj :=
        WriteString_obj io sc cPos spData s
      have := ih (Call.run io sc (Call.writeString cPos spData) s).2 (by rw [ho]; exact hbl)
      rw [ho] at this
      exact this
    | setBackLight b =>
      have ho : (Call.run io sc (Call.setBackLight b) s).2 =
          ⟨⟨s.obj.iI2cFile, specBacklight b⟩, s.trace⟩ := SetBackLight_snd b s
      have := ih (Call.run io sc (Call.setBackLight b) s).2
        (by rw [ho]; cases b <;> simp [specBacklight])
      rw [ho] at this
      exact this

/-! ## Claims -/

/-- C1: for every byte `b` and backlight state, `WriteCommand(b)` (control bits 0x00)
and `WriteData(b)` (control bits 0x01) hand the transport exactly the four bytes
`(b & 0xF0) | bl | control | 0x04`, that value with ENABLE cleared,
`((b << 4) & 0xF0) | bl | control | 0x04`, and that value with ENABLE cleared,
whatever the signedness of `char` and whether or not the transport fails. -/
theorem C1_transfer_bytes (io : Transport) (sc lit : Bool) (h : Int) (t : List Event)
    (b : Nat) (hb : b < 256) :
    (WriteCommand io (toChar sc b) ⟨⟨h, specBacklight lit⟩, t⟩).2.trace =
        t ++ [Event.write h
          [(b &&& 0xF0) ||| specBacklight lit ||| 0x00 ||| 0x04,
           specClearEnable ((b &&& 0xF0) ||| specBacklight lit ||| 0x00 ||| 0x04),
           ((b <<< 4) &&& 0xF0) ||| specBacklight lit ||| 0x00 ||| 0x04,
           specClearEnable (((b <<< 4) &&& 0xF0) ||| specBacklight lit ||| 0x00 ||| 0x04)]] ∧
    (WriteData io (toChar sc b) ⟨⟨h, specBacklight lit⟩, t⟩).2.trace =
        t ++ [Event.write h
          [(b &&& 0xF0) ||| specBacklight lit ||| 0x01 ||| 0x04,
           specClearEnable ((b &&& 0xF0) ||| specBacklight lit ||| 0x01 ||| 0x04),
           ((b <<< 4) &&& 0xF0) ||| specBacklight lit ||| 0x01 ||| 0x04,
           specClearEnable (((b <<< 4) &&& 0xF0) ||| specBacklight lit ||| 0x01 ||| 0x04)]] := by
  constructor
  · rw [WriteCommand_snd]
    show t ++ [Event.write h (WriteCommand.spData (specBacklight lit) (toChar sc b))] = _
    rw [WriteCommand_spData_byte sc lit b hb]
    rfl
  · rw [WriteData_snd]
    show t ++ [Event.write h (WriteData.spData (specBacklight lit) (toChar sc b))] = _
    rw [WriteData_spData_byte sc lit b hb]
    rfl

/-- Witness of C1 at the byte 0xC1, backlight on, signed `char` (so `c` is -63). -/
theorem C1_transfer_bytes_witness :
    (0xC1 : Nat) < 256 ∧
    (WriteCommand okTransport (toChar true 0xC1) ⟨⟨3, 0x08⟩, []⟩).2.trace =
        [Event.write 3 [0xCC, 0xC8, 0x1C, 0x18]] ∧
    (WriteData okTransport (toChar true 0xC1) ⟨⟨3, 0x08⟩, []⟩).2.trace =
        [Event.write 3 [0xCD, 0xC9, 0x1D, 0x19]] :=
  ⟨by decide, C1_transfer_bytes okTransport true true 3 [] 0xC1 (by decide)⟩

/-- C2: on a transport that never fails, `WriteText(pos, text)` for a text of non-zero
single-byte characters returns normally and appends to the trace the command
encoding of `pos` followed by the data encoding of each character, one write per
character in text order, and nothing else; the object is unchanged. -/
theorem C2_write_text_sequence (io : Transport) (hio : NeverFails io) (sc lit : Bool) (h : Int)
    (t : List Event) (pos : Nat) (hpos : pos < 256) (text : List Nat)
    (htext : ∀ b ∈ text, 0 < b ∧ b < 256) :
    WriteString io sc pos (text.map (fun b : Nat => toChar sc (b : Int))) ⟨⟨h, specBacklight lit⟩, t⟩ =
      (Except.ok (),
        ⟨⟨h, specBacklight lit⟩,
          t ++ Event.write h (specTransfers 0x00 (specBacklight lit) pos) ::
            text.map (fun b => Event.write h (specTransfers 0x01 (specBacklight lit) b))⟩) := by
  have hnz : ∀ c ∈ text.map (fun b : Nat => toChar sc (b : Int)), c ≠ 0 := by
    intro c hc
    obtain ⟨b, hbmem, rfl⟩ := List.mem_map.mp hc
    exact toChar_ne_zero sc b (htext b hbmem).1 (htext b hbmem).2
  unfold WriteString
  rw [andThen_ok _ _ _ _ (WriteCommand_ok io hio _ _), strlen_of_nonzero _ hnz]
  have hloop := forLoop_WriteData_ok io hio []
    (text.map (fun b : Nat => toChar sc (b : Int)))
    ⟨⟨h, specBacklight lit⟩,
      t ++ [Event.write h (WriteCommand.spData (specBacklight lit) (toChar sc pos))]⟩
  simp only [List.nil_append, List.length_nil] at hloop
  rw [hloop, WriteCommand_spData_byte sc lit pos hpos, List.map_map]
  have hmap : List.map ((fun c => Event.write h (WriteData.spData (specBacklight lit) c)) ∘
      fun b : Nat => toChar sc (b : Int)) text =
      text.map (fun b => Event.write h (specTransfers 0x01 (specBacklight lit) b)) := by
    apply List.map_congr_left
    intro b hbmem
    simp only [Function.comp]
    rw [WriteData_spData_byte sc lit b (htext b hbmem).2]
  rw [hmap]
  simp

/-- Witness of C2: position 0x80 and the text "AB", backlight off. -/
theorem C2_write_text_sequence_witness :
    NeverFails okTransport ∧ (0x80 : Nat) < 256 ∧ (∀ b ∈ [0x41, 0x42], 0 < b ∧ b < 256) ∧
    WriteString okTransport false 0x80 [0x41, 0x42] ⟨⟨3, 0x00⟩, []⟩ =
      (Except.ok (),
        ⟨⟨3, 0x00⟩,
          [Event.write 3 [0x84, 0x80, 0x04, 0x00],
           Event.write 3 [0x45, 0x41, 0x15, 0x11],
           Event.write 3 [0x45, 0x41, 0x25, 0x21]]⟩) :=
  ⟨fun _ _ _ => rfl, by decide, by decide,
    C2_write_text_sequence okTransport (fun _ _ _ => rfl) false false 3 [] 0x80 (by decide)
      [0x41, 0x42] (by decide)⟩

/-- C3: on a transport that never fails, `Initialize()` returns normally and issues
exactly six transport writes in this order: the raw byte 0x2C, the raw byte 0x28
(single bytes, not nibble encoded, each followed by a delay), then the command
encodings of 0x28, 0x0C, 0x06 and 0x01; with the backlight off the six bursts are
`[0x2C]`, `[0x28]`, `[0x24,0x20,0x84,0x80]`, `[0x04,0x00,0xC4,0xC0]`,
`[0x04,0x00,0x64,0x60]`, `[0x04,0x00,0x14,0x10]`. -/
theorem C3_init_sequence (io : Transport) (hio : NeverFails io) (sc lit : Bool) (h : Int)
    (t : List Event) :
    Init io sc ⟨⟨h, specBacklight lit⟩, t⟩ =
      (Except.ok (),
        ⟨⟨h, specBacklight lit⟩,
          t ++ [Event.write h [0x2C], Event.sleep 1000, Event.write h [0x28], Event.sleep 1000,
            Event.write h (specTransfers 0x00 (specBacklight lit) 0x28),
            Event.write h (specTransfers 0x00 (specBacklight lit) 0x0C),
            Event.write h (specTransfers 0x00 (specBacklight lit) 0x06),
            Event.write h (specTransfers 0x00 (specBacklight lit) 0x01)]⟩) ∧
    writes (Init io sc ⟨⟨h, specBacklight lit⟩, t⟩).2.trace =
      writes t ++ [(h, [0x2C]), (h, [0x28]),
        (h, specTransfers 0x00 (specBacklight lit) 0x28),
        (h, specTransfers 0x00 (specBacklight lit) 0x0C),
        (h, specTransfers 0x00 (specBacklight lit) 0x06),
        (h, specTransfers 0x00 (specBacklight lit) 0x01)] ∧
    writes (Init io sc ⟨⟨h, specBacklight false⟩, t⟩).2.trace =
      writes t ++ [(h, [0x2C]), (h, [0x28]), (h, [0x24, 0x20, 0x84, 0x80]),
        (h, [0x04, 0x00, 0xC4, 0xC0]), (h, [0x04, 0x00, 0x64, 0x60]),
        (h, [0x04, 0x00, 0x14, 0x10])] := by
  have key : ∀ l : Bool, Init io sc ⟨⟨h, specBacklight l⟩, t⟩ =
      (Except.ok (),
        ⟨⟨h, specBacklight l⟩,
          t ++ [Event.write h [0x2C], Event.sleep 1000, Event.write h [0x28], Event.sleep 1000,
            Event.write h (specTransfers 0x00 (specBacklight l) 0x28),
            Event.write h (specTransfers 0x00 (specBacklight l) 0x0C),
            Event.write h (specTransfers 0x00 (specBacklight l) 0x06),
            Event.write h (specTransfers 0x00 (specBacklight l) 0x01)]⟩) := by
    intro l
    have e28 := WriteCommand_spData_byte sc l 0x28 (by decide)
    have e0C := WriteCommand_spData_byte sc l 0x0C (by decide)
    have e06 := WriteCommand_spData_byte sc l 0x06 (by decide)
    have e01 := WriteCommand_spData_byte sc l 0x01 (by decide)
    simp only [Nat.cast_ofNat, Nat.cast_one] at e28 e0C e06 e01
    simp only [Init, andThen, usleep, I2cWrite_ok io hio, WriteCommand_ok io hio,
      e28, e0C, e06, e01, List.append_assoc, List.singleton_append, List.take,
      Function.comp]
    rfl
  refine ⟨key lit, ?_, ?_⟩
  · rw [key lit, writes_append]
    rfl
  · rw [key false, writes_append]
    rfl

/-- Witness of C3 on the transport that never fails, backlight on. -/
theorem C3_init_sequence_witness :
    NeverFails okTransport ∧
    writes (Init okTransport true ⟨⟨3, 0x08⟩, []⟩).2.trace =
      [(3, [0x2C]), (3, [0x28]), (3, [0x2C, 0x28, 0x8C, 0x88]), (3, [0x0C, 0x08, 0xCC, 0xC8]),
        (3, [0x0C, 0x08, 0x6C, 0x68]), (3, [0x0C, 0x08, 0x1C, 0x18])] :=
  ⟨fun _ _ _ => rfl, (C3_init_sequence okTransport (fun _ _ _ => rfl) true true 3 []).2.1⟩

/-- C4: for every byte `b` and every backlight state, `WriteCommand(b)` and
`WriteData(b)` each make exactly one transport write call, and that call carries all
four transfer bytes of `b` (length 4) as a single burst, on every transport.  For an
arbitrary `char` value and state the one call carries the whole four-byte buffer. -/
theorem C4_single_burst (io : Transport) (sc lit : Bool) (h : Int) (t : List Event) (b : Nat)
    (hb : b < 256) (c : Int) (s : Sys) :
    ((WriteCommand io (toChar sc b) ⟨⟨h, specBacklight lit⟩, t⟩).2.trace =
        t ++ [Event.write h (specTransfers 0x00 (specBacklight lit) b)] ∧
      writes (WriteCommand io (toChar sc b) ⟨⟨h, specBacklight lit⟩, t⟩).2.trace =
        writes t ++ [(h, specTransfers 0x00 (specBacklight lit) b)] ∧
      (writes (WriteCommand io (toChar sc b) ⟨⟨h, specBacklight lit⟩, t⟩).2.trace).length =
        (writes t).length + 1 ∧
      (specTransfers 0x00 (specBacklight lit) b).length = 4) ∧
    ((WriteData io (toChar sc b) ⟨⟨h, specBacklight lit⟩, t⟩).2.trace =
        t ++ [Event.write h (specTransfers 0x01 (specBacklight lit) b)] ∧
      writes (WriteData io (toChar sc b) ⟨⟨h, specBacklight lit⟩, t⟩).2.trace =
        writes t ++ [(h, specTransfers 0x01 (specBacklight lit) b)] ∧
      (writes (WriteData io (toChar sc b) ⟨⟨h, specBacklight lit⟩, t⟩).2.trace).length =
        (writes t).length + 1 ∧
      (specTransfers 0x01 (specBacklight lit) b).length = 4) ∧
    ((WriteCommand io c s).2.trace =
        s.trace ++ [Event.write s.obj.iI2cFile (WriteCommand.spData s.obj.cBackLight c)] ∧
      writes (WriteCommand io c s).2.trace =
        writes s.trace ++ [(s.obj.iI2cFile, WriteCommand.spData s.obj.cBackLight c)] ∧
      (WriteCommand.spData s.obj.cBackLight c).length = 4) ∧
    ((WriteData io c s).2.trace =
        s.trace ++ [Event.write s.obj.iI2cFile (WriteData.spData s.obj.cBackLight c)] ∧
      writes (WriteData io c s).2.trace =
        writes s.trace ++ [(s.obj.iI2cFile, WriteData.spData s.obj.cBackLight c)] ∧
      (WriteData.spData s.obj.cBackLight c).length = 4) := by
  have hc : (WriteCommand io (toChar sc b) ⟨⟨h, specBacklight lit⟩, t⟩).2.trace =
      t ++ [Event.write h (specTransfers 0x00 (specBacklight lit) b)] := by
    rw [WriteCommand_snd]
    show t ++ [Event.write h (WriteCommand.spData (specBacklight lit) (toChar sc b))] = _
    rw [WriteCommand_spData_byte sc lit b hb]
  have hd : (WriteData io (toChar sc b) ⟨⟨h, specBacklight lit⟩, t⟩).2.trace =
      t ++ [Event.write h (specTransfers 0x01 (specBacklight lit) b)] := by
    rw [WriteData_snd]
    show t ++ [Event.write h (WriteData.spData (specBacklight lit) (toChar sc b))] = _
    rw [WriteData_spData_byte sc lit b hb]
  refine ⟨⟨hc, ?_, ?_, rfl⟩, ⟨hd, ?_, ?_, rfl⟩, ⟨?_, ?_, rfl⟩, ⟨?_, ?_, rfl⟩⟩
  · rw [hc, writes_snoc_write]
  · rw [hc, writes_snoc_write]
    simp
  · rw [hd, writes_snoc_write]
  · rw [hd, writes_snoc_write]
    simp
  · rw [WriteCommand_snd]
  · rw [WriteCommand_snd, writes_snoc_write]
  · rw [WriteData_snd]
  · rw [WriteData_snd, writes_snoc_write]

/-- Witness of C4 at the byte 0x5A, backlight off, unsigned `char`, on a transport
whose first write fails. -/
theorem C4_single_burst_witness :
    (0x5A : Nat) < 256 ∧
    writes (WriteCommand (failAt 0 "bus") (toChar false 0x5A) ⟨⟨3, 0x00⟩, []⟩).2.trace =
      [(3, [0x54, 0x50, 0xA4, 0xA0])] ∧
    writes (WriteData (failAt 0 "bus") (toChar false 0x5A) ⟨⟨3, 0x00⟩, []⟩).2.trace =
      [(3, [0x55, 0x51, 0xA5, 0xA1])] :=
  have w := C4_single_burst (failAt 0 "bus") false false 3 [] 0x5A (by decide) 0
    ⟨⟨3, 0x00⟩, []⟩
  ⟨by decide, w.1.2.1, w.2.1.2.1⟩

/-- C5 (as stated, refuted): `WriteCommand(0x41)` makes one transport write call, not four. -/
theorem C5_counterexample :
    (writes (WriteCommand okTransport (toChar false 0x41) ⟨⟨3, 0x00⟩, []⟩).2.trace).length = 1 ∧
    (writes (WriteCommand okTransport (toChar false 0x41) ⟨⟨3, 0x00⟩, []⟩).2.trace).length ≠ 4 ∧
    (writes (WriteData okTransport (toChar false 0x41) ⟨⟨3, 0x00⟩, []⟩).2.trace).length ≠ 4 := by
  decide

/-- C5 (amended): for every byte `b`, `WriteCommand(b)` and `WriteData(b)` each produce
exactly one transport write call, and that call carries exactly four transfer bytes:
high nibble asserted, high nibble released, low nibble asserted, low nibble released. -/
theorem C5_four_transfers_one_call (io : Transport) (sc lit : Bool) (h : Int) (t : List Event)
    (b : Nat) (hb : b < 256) :
    (∃ data : List Nat,
      writes (WriteCommand io (toChar sc b) ⟨⟨h, specBacklight lit⟩, t⟩).2.trace =
        writes t ++ [(h, data)] ∧ IsNibblePulses b data) ∧
    (∃ data : List Nat,
      writes (WriteData io (toChar sc b) ⟨⟨h, specBacklight lit⟩, t⟩).2.trace =
        writes t ++ [(h, data)] ∧ IsNibblePulses b data) := by
  have hhi : toBits (toChar sc b) % 256 / 16 = b / 16 := by rw [toBits_toChar sc b hb]
  have hlo : toBits (toChar sc b) % 16 = b % 16 := by
    have := toBits_toChar sc b hb
    omega
  have hk1 : b / 16 < 16 := by omega
  have hk2 : b % 16 < 16 := by omega
  constructor
  · refine ⟨WriteCommand.spData (specBacklight lit) (toChar sc b), ?_, ?_⟩
    · rw [WriteCommand_snd, writes_append]
      rfl
    · rw [WriteCommand_spData_normal, hhi, hlo]
      refine ⟨_, _, _, _, rfl, ?_, ?_, ?_, ?_⟩
      · have := xfer_bits lit _ hk1 4 (by decide)
        exact ⟨this.2.2.2.2, this.2.1⟩
      · have := xfer_bits lit _ hk1 0 (by decide)
        exact ⟨this.2.2.2.2, this.2.1⟩
      · have := xfer_bits lit _ hk2 4 (by decide)
        exact ⟨this.2.2.2.2, this.2.1⟩
      · have := xfer_bits lit _ hk2 0 (by decide)
        exact ⟨this.2.2.2.2, this.2.1⟩
  · refine ⟨WriteData.spData (specBacklight lit) (toChar sc b), ?_, ?_⟩
    · rw [WriteData_snd, writes_append]
      rfl
    · rw [WriteData_spData_normal, hhi, hlo]
      refine ⟨_, _, _, _, rfl, ?_, ?_, ?_, ?_⟩
      · have := xfer_bits lit _ hk1 5 (by decide)
        exact ⟨this.2.2.2.2, this.2.1⟩
      · have := xfer_bits lit _ hk1 1 (by decide)
        exact ⟨this.2.2.2.2, this.2.1⟩
      · have := xfer_bits lit _ hk2 5 (by decide)
        exact ⟨this.2.2.2.2, this.2.1⟩
      · have := xfer_bits lit _ hk2 1 (by decide)
        exact ⟨this.2.2.2.2, this.2.1⟩

/-- Witness of the amended C5 at the byte 0x41, backlight off, unsigned `char`. -/
theorem C5_four_transfers_one_call_witness :
    (0x41 : Nat) < 256 ∧
    (∃ data : List Nat,
      writes (WriteCommand okTransport (toChar false 0x41) ⟨⟨3, 0x00⟩, []⟩).2.trace =
        [(3, data)] ∧ IsNibblePulses 0x41 data) ∧
    (∃ data : List Nat,
      writes (WriteData okTransport (toChar false 0x41) ⟨⟨3, 0x00⟩, []⟩).2.trace =
        [(3, data)] ∧ IsNibblePulses 0x41 data) :=
  ⟨by decide, C5_four_transfers_one_call okTransport false false 3 [] 0x41 (by decide)⟩

/-- C6: for every `char` value (in particular every byte) and every backlight state,
the four transfer bytes of `WriteCommand` and of `WriteData` differ only in bit 0:
at each position the command byte has bit 0 clear, the data byte has bit 0 set, the
data byte is the command byte OR 0x01, and bits 1 to 7 agree. -/
theorem C6_register_select_only (io : Transport) (lit : Bool) (h : Int) (t : List Event)
    (c : Int) :
    ∃ cs ds : List Nat,
      (WriteCommand io c ⟨⟨h, specBacklight lit⟩, t⟩).2.trace = t ++ [Event.write h cs] ∧
      (WriteData io c ⟨⟨h, specBacklight lit⟩, t⟩).2.trace = t ++ [Event.write h ds] ∧
      cs.length = 4 ∧ ds.length = 4 ∧
      ∀ p ∈ cs.zip ds, DiffersInRegisterSelect p.1 p.2 := by
  refine ⟨WriteCommand.spData (specBacklight lit) c, WriteData.spData (specBacklight lit) c,
    ?_, ?_, rfl, rfl, ?_⟩
  · rw [WriteCommand_snd]
  · rw [WriteData_snd]
  · rw [WriteCommand_spData_normal, WriteData_spData_normal]
    have hi := xfer_pair lit _ (high_nibble_lt c)
    have lo := xfer_pair lit _ (low_nibble_lt c)
    intro p hp
    simp only [List.zip_cons_cons, List.zip_nil_right, List.mem_cons, List.mem_nil_iff,
      or_false] at hp
    rcases hp with rfl | rfl | rfl | rfl
    · exact hi.1
    · exact hi.2
    · exact lo.1
    · exact lo.2

/-- C7: after `SetBacklight(lit)`, the immediately following `WriteCommand` or
`WriteData` emits four transfer bytes that all carry the same backlight bit: bit 3 is
set in all four when `lit` is true and clear in all four when it is false. -/
theorem C7_backlight_in_all_four (io : Transport) (lit : Bool) (c : Int) (s : Sys) :
    (∃ data : List Nat,
      (WriteCommand io c (SetBackLight lit s).2).2.trace =
        s.trace ++ [Event.write s.obj.iI2cFile data] ∧
      data.length = 4 ∧ ∀ x ∈ data, x.testBit 3 = lit) ∧
    (∃ data : List Nat,
      (WriteData io c (SetBackLight lit s).2).2.trace =
        s.trace ++ [Event.write s.obj.iI2cFile data] ∧
      data.length = 4 ∧ ∀ x ∈ data, x.testBit 3 = lit) := by
  have hi := xfer_bits lit _ (high_nibble_lt c)
  have lo := xfer_bits lit _ (low_nibble_lt c)
  constructor
  · refine ⟨WriteCommand.spData (specBacklight lit) c, ?_, rfl, ?_⟩
    · rw [SetBackLight_snd, WriteCommand_snd]
    · rw [WriteCommand_spData_normal]
      intro x hx
      simp only [List.mem_cons, List.mem_nil_iff, or_false] at hx
      rcases hx with rfl | rfl | rfl | rfl
      · exact (hi 4 (by decide)).1
      · exact (hi 0 (by decide)).1
      · exact (lo 4 (by decide)).1
      · exact (lo 0 (by decide)).1
  · refine ⟨WriteData.spData (specBacklight lit) c, ?_, rfl, ?_⟩
    · rw [SetBackLight_snd, WriteData_snd]
    · rw [WriteData_spData_normal]
      intro x hx
      simp only [List.mem_cons, List.mem_nil_iff, or_false] at hx
      rcases hx with rfl | rfl | rfl | rfl
      · exact (hi 5 (by decide)).1
      · exact (hi 1 (by decide)).1
      · exact (lo 5 (by decide)).1
      · exact (lo 1 (by decide)).1

/-- C8 (as stated, refuted): with the backlight off, `Initialize()` issues a write
(the raw byte 0x2C) whose bit 3 is set, so not every byte carries the backlight state. -/
theorem C8_counterexample :
    ¬ (∀ w ∈ writes (Init okTransport false (SetBackLight false ⟨⟨3, 0x00⟩, []⟩).2).2.trace,
        ∀ x ∈ w.2, x.testBit 3 = false) := by
  decide

/-- C8 (amended): for every backlight state and every transport, every byte of every
write issued by `WriteText` has bit 3 equal to the backlight state.  The writes
issued by `Initialize()` are a non-empty initial part of its six bursts (all six when
no write fails): the first two are the raw writes, the fixed bytes 0x2C and 0x28, and
the four later bursts are the command encodings of 0x28, 0x0C, 0x06 and 0x01, in
which every byte has bit 3 equal to the backlight state.
Neither operation changes the object. -/
theorem C8_backlight_in_encoded_transfers (io : Transport) (sc lit : Bool) (h : Int)
    (t : List Event) (pos : Nat) (spData : List Int) :
    (∃ ev : List Event,
      (WriteString io sc pos spData ⟨⟨h, specBacklight lit⟩, t⟩).2 =
        ⟨⟨h, specBacklight lit⟩, t ++ ev⟩ ∧
      ∀ e ∈ ev, ∃ data, e = Event.write h data ∧ CarriesBacklight lit data) ∧
    (∃ ev : List Event,
      (Init io sc ⟨⟨h, specBacklight lit⟩, t⟩).2 = ⟨⟨h, specBacklight lit⟩, t ++ ev⟩ ∧
      ∀ e ∈ ev, e = Event.sleep 1000 ∨ e = Event.write h [0x2C] ∨ e = Event.write h [0x28] ∨
        ∃ data, e = Event.write h data ∧ CarriesBacklight lit data) ∧
    (∃ n : Nat,
      1 ≤ n ∧ n ≤ 6 ∧
      writes (Init io sc ⟨⟨h, specBacklight lit⟩, t⟩).2.trace =
        writes t ++ ([(h, [0x2C]), (h, [0x28]),
          (h, specTransfers 0x00 (specBacklight lit) 0x28),
          (h, specTransfers 0x00 (specBacklight lit) 0x0C),
          (h, specTransfers 0x00 (specBacklight lit) 0x06),
          (h, specTransfers 0x00 (specBacklight lit) 0x01)].take n) ∧
      (NeverFails io → n = 6)) ∧
    (CarriesBacklight lit (specTransfers 0x00 (specBacklight lit) 0x28) ∧
      CarriesBacklight lit (specTransfers 0x00 (specBacklight lit) 0x0C) ∧
      CarriesBacklight lit (specTransfers 0x00 (specBacklight lit) 0x06) ∧
      CarriesBacklight lit (specTransfers 0x00 (specBacklight lit) 0x01)) := by
  refine ⟨?_, ?_, ?_, ?_⟩
  · have hcmd : ∀ c : Int, Issues ⟨h, specBacklight lit⟩
        (fun e => ∃ data, e = Event.write h data ∧ CarriesBacklight lit data)
        (WriteCommand io c) := fun c =>
      Issues_WriteCommand _ _ io c ⟨_, rfl, WriteCommand_spData_backlight lit c⟩
    have hdat : ∀ c : Int, Issues ⟨h, specBacklight lit⟩
        (fun e => ∃ data, e = Event.write h data ∧ CarriesBacklight lit data)
        (WriteData io c) := fun c =>
      Issues_WriteData _ _ io c ⟨_, rfl, WriteData_spData_backlight lit c⟩
    exact Issues_andThen _ _ _ _ (hcmd _) (Issues_forLoop _ _ _ (fun i => hdat _) 0 _) t
  · have hcmd : ∀ c : Int, Issues ⟨h, specBacklight lit⟩
        (fun e => e = Event.sleep 1000 ∨ e = Event.write h [0x2C] ∨ e = Event.write h [0x28] ∨
          ∃ data, e = Event.write h data ∧ CarriesBacklight lit data)
        (WriteCommand io c) := fun c =>
      Issues_WriteCommand _ _ io c
        (Or.inr (Or.inr (Or.inr ⟨_, rfl, WriteCommand_spData_backlight lit c⟩)))
    unfold Init
    refine Issues_andThen _ _ _ _ (Issues_I2cWrite _ _ io _ _ (Or.inr (Or.inl rfl))) ?_ t
    refine Issues_andThen _ _ _ _ (Issues_usleep _ _ _ (Or.inl rfl)) ?_
    refine Issues_andThen _ _ _ _ (Issues_I2cWrite _ _ io _ _ (Or.inr (Or.inr (Or.inl rfl)))) ?_
    refine Issues_andThen _ _ _ _ (Issues_usleep _ _ _ (Or.inl rfl)) ?_
    refine Issues_andThen _ _ _ _ (hcmd _) ?_
    refine Issues_andThen _ _ _ _ (hcmd _) ?_
    exact Issues_andThen _ _ _ _ (hcmd _) (hcmd _)
  · have heq := Init_eq_script io sc ⟨h, specBacklight lit⟩ t
    have hb := Init_script_bursts sc lit
    obtain ⟨n, hn, hpos, _, hw, hall⟩ := runScript_prefix io h
      (Init.script sc (specBacklight lit)) ⟨⟨h, specBacklight lit⟩, t⟩
    rw [hb] at hn hpos hw hall
    refine ⟨n, hpos (by simp [specInitBursts]), hn, ?_, hall⟩
    rw [heq, hw]
    simp only [specInitBursts, List.map_take, List.map_cons, List.map_nil]
  · have e28 := WriteCommand_spData_byte sc lit 0x28 (by decide)
    have e0C := WriteCommand_spData_byte sc lit 0x0C (by decide)
    have e06 := WriteCommand_spData_byte sc lit 0x06 (by decide)
    have e01 := WriteCommand_spData_byte sc lit 0x01 (by decide)
    exact ⟨e28 ▸ WriteCommand_spData_backlight lit _, e0C ▸ WriteCommand_spData_backlight lit _,
      e06 ▸ WriteCommand_spData_backlight lit _, e01 ▸ WriteCommand_spData_backlight lit _⟩

/-- C9: a freshly constructed session has the backlight byte 0x00; after any sequence
of `SetBacklight` calls the state, and with it the buffer of every later
`WriteCommand` and `WriteData`, depends only on the argument of the last call; and
`SetBacklight(true)` followed by `SetBacklight(false)` makes `WriteCommand` and
`WriteData` behave exactly as on the fresh session. -/
theorem C9_last_write_wins (io : Transport) (cAddress : Nat) (t0 t1 : List Event)
    (d : CI2cDisplay) (hnew : CI2cDisplay.construct io cAddress t0 = (Except.ok d, t1))
    (calls : List Bool) (last : Bool) (s : Sys) (c : Int) (t : List Event) :
    d.cBackLight = 0x00 ∧
    runBackLightCalls (calls ++ [last]) s = ⟨⟨s.obj.iI2cFile, specBacklight last⟩, s.trace⟩ ∧
    WriteCommand io c (runBackLightCalls (calls ++ [last]) s) =
      WriteCommand io c (SetBackLight last s).2 ∧
    WriteData io c (runBackLightCalls (calls ++ [last]) s) =
      WriteData io c (SetBackLight last s).2 ∧
    WriteCommand io c (runBackLightCalls [true, false] ⟨d, t⟩) = WriteCommand io c ⟨d, t⟩ ∧
    WriteData io c (runBackLightCalls [true, false] ⟨d, t⟩) = WriteData io c ⟨d, t⟩ := by
  have hfresh : d.cBackLight = 0x00 := by
    unfold CI2cDisplay.construct at hnew
    cases hopen : io.openResult "1" cAddress with
    | error e =>
      rw [hopen] at hnew
      simp at hnew
    | ok hdl =>
      rw [hopen] at hnew
      simp only [Prod.mk.injEq, Except.ok.injEq] at hnew
      rw [← hnew.1]
  have hlast := runBackLightCalls_last calls last s
  have hback : runBackLightCalls [true, false] ⟨d, t⟩ = ⟨d, t⟩ := by
    cases d with
    | mk hdl bl =>
      simp only at hfresh
      subst hfresh
      rfl
  refine ⟨hfresh, hlast, ?_, ?_, ?_, ?_⟩
  · rw [hlast, SetBackLight_snd]
  · rw [hlast, SetBackLight_snd]
  · rw [hback]
  · rw [hback]

/-- Witness of C9: the session opened on the never-failing transport at address 0x27. -/
theorem C9_last_write_wins_witness :
    CI2cDisplay.construct okTransport 0x27 [] = (Except.ok ⟨3, 0x00⟩, [Event.open "1" 0x27]) ∧
    WriteCommand okTransport 0x41 (runBackLightCalls [true, false] ⟨⟨3, 0x00⟩, []⟩) =
      WriteCommand okTransport 0x41 ⟨⟨3, 0x00⟩, []⟩ :=
  ⟨rfl, (C9_last_write_wins okTransport 0x27 [] [Event.open "1" 0x27] ⟨3, 0x00⟩ rfl
    [true] false ⟨⟨3, 0x00⟩, []⟩ 0x41 []).2.2.2.2.1⟩

/-- C10: `SetBacklight(lit)` returns normally in every state, issues no transport
write (the trace is unchanged), leaves the transport handle unchanged, and sets the
backlight byte to 0x08 when `lit` is true and to 0x00 when it is false. -/
theorem C10_set_backlight_frame (lit : Bool) (s : Sys) :
    (SetBackLight lit s).1 = Except.ok () ∧
    (SetBackLight lit s).2.trace = s.trace ∧
    writes (SetBackLight lit s).2.trace = writes s.trace ∧
    (SetBackLight lit s).2.obj.iI2cFile = s.obj.iI2cFile ∧
    (SetBackLight lit s).2.obj.cBackLight = (if lit then 0x08 else 0x00) ∧
    (SetBackLight true s).2.obj.cBackLight = 0x08 ∧
    (SetBackLight false s).2.obj.cBackLight = 0x00 :=
  ⟨rfl, rfl, rfl, rfl, rfl, rfl, rfl⟩

/-- C11: for every position byte and every backlight state, `WriteText(pos, "")`
issues exactly one transport write, the position command for `pos`, and no data
write, on every transport. -/
theorem C11_empty_text (io : Transport) (sc lit : Bool) (h : Int) (t : List Event) (pos : Nat)
    (hpos : pos < 256) (spData : List Int) (hempty : strlen spData = 0) :
    (WriteString io sc pos spData ⟨⟨h, specBacklight lit⟩, t⟩).2.trace =
      t ++ [Event.write h (specTransfers 0x00 (specBacklight lit) pos)] ∧
    writes (WriteString io sc pos spData ⟨⟨h, specBacklight lit⟩, t⟩).2.trace =
      writes t ++ [(h, specTransfers 0x00 (specBacklight lit) pos)] ∧
    (writes (WriteString io sc pos spData ⟨⟨h, specBacklight lit⟩, t⟩).2.trace).length =
      (writes t).length + 1 := by
  have key : (WriteString io sc pos spData ⟨⟨h, specBacklight lit⟩, t⟩).2.trace =
      t ++ [Event.write h (specTransfers 0x00 (specBacklight lit) pos)] := by
    unfold WriteString
    rw [hempty]
    simp only [forLoop, andThen_skip]
    rw [WriteCommand_snd]
    show t ++ [Event.write h (WriteCommand.spData (specBacklight lit) (toChar sc pos))] = _
    rw [WriteCommand_spData_byte sc lit pos hpos]
  refine ⟨key, ?_, ?_⟩
  · rw [key, writes_snoc_write]
  · rw [key, writes_snoc_write]
    simp

/-- Witness of C11: position 0x80, the empty text, backlight on, a transport whose
first write fails. -/
theorem C11_empty_text_witness :
    (0x80 : Nat) < 256 ∧ strlen [] = 0 ∧
    (WriteString (failAt 0 "bus") true 0x80 [] ⟨⟨3, 0x08⟩, []⟩).2.trace =
      [Event.write 3 [0x8C, 0x88, 0x0C, 0x08]] :=
  ⟨by decide, rfl, (C11_empty_text (failAt 0 "bus") true true 3 [] 0x80 (by decide) [] rfl).1⟩

/-- C12 (as stated, refuted): `WriteText(0x80, "AB")` issues three transport writes
carrying twelve transfer bytes; neither count is nine. -/
theorem C12_counterexample :
    (writes (WriteString okTransport false 0x80 [0x41, 0x42] ⟨⟨3, 0x00⟩, []⟩).2.trace).length = 3 ∧
    (writes (WriteString okTransport false 0x80 [0x41, 0x42] ⟨⟨3, 0x00⟩, []⟩).2.trace).length ≠ 9 ∧
    ((writes (WriteString okTransport false 0x80 [0x41, 0x42] ⟨⟨3, 0x00⟩, []⟩).2.trace).map
      (fun w => w.2.length)).sum = 12 ∧
    ((writes (WriteString okTransport false 0x80 [0x41, 0x42] ⟨⟨3, 0x00⟩, []⟩).2.trace).map
      (fun w => w.2.length)).sum ≠ 9 := by
  decide

/-- C12 (amended): on a transport that never fails, `WriteText(0x80, "AB")` issues three
transport writes carrying 3 × 4 = 12 transfer bytes: the command burst (4 transfers)
for the position 0x80, then the data bursts (4 transfers each) for the characters A
and B, in that order. -/
theorem C12_three_bursts (io : Transport) (hio : NeverFails io) (sc lit : Bool) (h : Int)
    (t : List Event) :
    (WriteString io sc 0x80 [0x41, 0x42] ⟨⟨h, specBacklight lit⟩, t⟩).1 = Except.ok () ∧
    writes (WriteString io sc 0x80 [0x41, 0x42] ⟨⟨h, specBacklight lit⟩, t⟩).2.trace =
      writes t ++ [(h, specTransfers 0x00 (specBacklight lit) 0x80),
        (h, specTransfers 0x01 (specBacklight lit) 0x41),
        (h, specTransfers 0x01 (specBacklight lit) 0x42)] ∧
    (specTransfers 0x00 (specBacklight lit) 0x80).length = 4 ∧
    (specTransfers 0x01 (specBacklight lit) 0x41).length = 4 ∧
    (specTransfers 0x01 (specBacklight lit) 0x42).length = 4 := by
  have hnz : ∀ c ∈ ([0x41, 0x42] : List Int), c ≠ 0 := by decide
  have heq := WriteString_eq_script io sc ⟨h, specBacklight lit⟩ 0x80 [0x41, 0x42] hnz t
  have hb := WriteString_script_bursts sc lit 0x80 (by decide) [0x41, 0x42] (by decide)
  have hrun := runScript_ok io hio h
    (WriteString.script sc (specBacklight lit) 0x80 [0x41, 0x42]) ⟨⟨h, specBacklight lit⟩, t⟩
  have hchars : ([0x41, 0x42] : List Nat).map (fun b : Nat => toChar sc (b : Int)) =
      [0x41, 0x42] := by cases sc <;> rfl
  rw [hchars] at hb
  rw [hb] at hrun
  rw [heq]
  exact ⟨hrun.1, hrun.2.2, rfl, rfl, rfl⟩

/-- Witness of the amended C12 on the transport that never fails, backlight off. -/
theorem C12_three_bursts_witness :
    NeverFails okTransport ∧
    writes (WriteString okTransport false 0x80 [0x41, 0x42] ⟨⟨3, 0x00⟩, []⟩).2.trace =
      [(3, [0x84, 0x80, 0x04, 0x00]), (3, [0x45, 0x41, 0x15, 0x11]),
        (3, [0x45, 0x41, 0x25, 0x21])] :=
  ⟨fun _ _ _ => rfl, (C12_three_bursts okTransport (fun _ _ _ => rfl) false false 3 []).2.1⟩

/-- C13: `Initialize()` aborts on the first transport failure.  For every `k` from 1 to
6, when the first `k - 1` writes of `Initialize()` succeed and the `k`-th fails with
the error `e`, `Initialize()` throws `e`, the writes attempted are exactly the first
`k` of the six bursts (none after the `k`-th), and the object is unchanged; for
`k = 3` the bursts 4 to 6 are never attempted. -/
theorem C13_init_aborts (io : Transport) (sc lit : Bool) (h : Int) (t : List Event) (k : Nat)
    (e : String) (hk : 1 ≤ k ∧ k ≤ 6)
    (hprev : ∀ j, 1 ≤ j → j < k →
      io.writeError ((writes t).length + (j - 1)) h
        ((specInitBursts (specBacklight lit)).getD (j - 1) []) = none)
    (hfail : io.writeError ((writes t).length + (k - 1)) h
        ((specInitBursts (specBacklight lit)).getD (k - 1) []) = some e) :
    (Init io sc ⟨⟨h, specBacklight lit⟩, t⟩).1 = Except.error e ∧
    (Init io sc ⟨⟨h, specBacklight lit⟩, t⟩).2.obj = ⟨h, specBacklight lit⟩ ∧
    writes (Init io sc ⟨⟨h, specBacklight lit⟩, t⟩).2.trace =
      writes t ++ ((specInitBursts (specBacklight lit)).take k).map (fun d => (h, d)) ∧
    (k = 3 →
      writes (Init io sc ⟨⟨h, specBacklight lit⟩, t⟩).2.trace =
        writes t ++ [(h, [0x2C]), (h, [0x28]),
          (h, specTransfers 0x00 (specBacklight lit) 0x28)]) := by
  have heq := Init_eq_script io sc ⟨h, specBacklight lit⟩ t
  have hb := Init_script_bursts sc lit
  obtain ⟨k', rfl⟩ : ∃ k', k = k' + 1 := ⟨k - 1, by omega⟩
  have hrun := runScript_abort_at io h (Init.script sc (specBacklight lit)) k' e
    ⟨⟨h, specBacklight lit⟩, t⟩
    (by rw [hb]; simp only [specInitBursts, List.length_cons, List.length_nil]; omega)
    (by
      intro j hj
      rw [hb]
      have := hprev (j + 1) (by omega) (by omega)
      simpa using this)
    (by
      rw [hb]
      simpa using hfail)
  rw [hb] at hrun
  rw [heq]
  refine ⟨hrun.1, hrun.2.1, hrun.2.2, ?_⟩
  intro h3
  have hk' : k' = 2 := by omega
  subst hk'
  rw [hrun.2.2]
  rfl

/-- Witness of C13: the third write of `Initialize()` fails; bursts 4 to 6 are never
attempted. -/
theorem C13_init_aborts_witness :
    (Init (failAt 2 "bus") false ⟨⟨3, 0x00⟩, []⟩).1 = Except.error "bus" ∧
    writes (Init (failAt 2 "bus") false ⟨⟨3, 0x00⟩, []⟩).2.trace =
      [(3, [0x2C]), (3, [0x28]), (3, [0x24, 0x20, 0x84, 0x80])] :=
  have w := C13_init_aborts (failAt 2 "bus") false false 3 [] 3 "bus" (by decide)
    (by intro j h1 h2; interval_cases j <;> rfl) rfl
  ⟨w.1, w.2.2.1⟩

/-- C14: `WriteText` aborts on the first transport failure.  For a text of `n` non-zero
characters and every `k` from 1 to `n + 1`, when the first `k - 1` writes succeed and
the `k`-th fails with the error `e`, `WriteText` throws `e`, the writes attempted are
exactly the first `k` of the failure-free sequence (the position command, then one
data burst per character), so no data write for a remaining character is attempted;
the object is unchanged. -/
theorem C14_write_text_aborts (io : Transport) (sc lit : Bool) (h : Int) (t : List Event)
    (pos : Nat) (hpos : pos < 256) (text : List Nat) (htext : ∀ b ∈ text, 0 < b ∧ b < 256)
    (k : Nat) (e : String) (hk : 1 ≤ k ∧ k ≤ text.length + 1)
    (hprev : ∀ j, 1 ≤ j → j < k →
      io.writeError ((writes t).length + (j - 1)) h
        ((specTextBursts (specBacklight lit) pos text).getD (j - 1) []) = none)
    (hfail : io.writeError ((writes t).length + (k - 1)) h
        ((specTextBursts (specBacklight lit) pos text).getD (k - 1) []) = some e) :
    (WriteString io sc pos (text.map (fun b : Nat => toChar sc (b : Int)))
        ⟨⟨h, specBacklight lit⟩, t⟩).1 = Except.error e ∧
    (WriteString io sc pos (text.map (fun b : Nat => toChar sc (b : Int)))
        ⟨⟨h, specBacklight lit⟩, t⟩).2.obj = ⟨h, specBacklight lit⟩ ∧
    writes (WriteString io sc pos (text.map (fun b : Nat => toChar sc (b : Int)))
        ⟨⟨h, specBacklight lit⟩, t⟩).2.trace =
      writes t ++ ((specTextBursts (specBacklight lit) pos text).take k).map (fun d => (h, d)) ∧
    (∀ io0 : Transport, NeverFails io0 →
      writes (WriteString io0 sc pos (text.map (fun b : Nat => toChar sc (b : Int)))
          ⟨⟨h, specBacklight lit⟩, t⟩).2.trace =
        writes t ++ (specTextBursts (specBacklight lit) pos text).map (fun d => (h, d))) := by
  have hnz : ∀ c ∈ text.map (fun b : Nat => toChar sc (b : Int)), c ≠ 0 := by
    intro c hc
    obtain ⟨b, hbmem, rfl⟩ := List.mem_map.mp hc
    exact toChar_ne_zero sc b (htext b hbmem).1 (htext b hbmem).2
  have hb := WriteString_script_bursts sc lit pos hpos text (fun b hbm => (htext b hbm).2)
  have hlen : (specTextBursts (specBacklight lit) pos text).length = text.length + 1 := by
    simp [specTextBursts]
  obtain ⟨k', rfl⟩ : ∃ k', k = k' + 1 := ⟨k - 1, by omega⟩
  have hrun := runScript_abort_at io h
    (WriteString.script sc (specBacklight lit) pos (text.map (fun b : Nat => toChar sc (b : Int))))
    k' e ⟨⟨h, specBacklight lit⟩, t⟩
    (by rw [hb, hlen]; omega)
    (by
      intro j hj
      rw [hb]
      have := hprev (j + 1) (by omega) (by omega)
      simpa using this)
    (by
      rw [hb]
      simpa using hfail)
  rw [hb] at hrun
  refine ⟨?_, ?_, ?_, ?_⟩
  · rw [WriteString_eq_script io sc ⟨h, specBacklight lit⟩ pos _ hnz t]
    exact hrun.1
  · rw [WriteString_eq_script io sc ⟨h, specBacklight lit⟩ pos _ hnz t]
    exact hrun.2.1
  · rw [WriteString_eq_script io sc ⟨h, specBacklight lit⟩ pos _ hnz t]
    exact hrun.2.2
  · intro io0 hio0
    rw [WriteString_eq_script io0 sc ⟨h, specBacklight lit⟩ pos _ hnz t]
    have hok := runScript_ok io0 hio0 h
      (WriteString.script sc (specBacklight lit) pos
        (text.map (fun b : Nat => toChar sc (b : Int)))) ⟨⟨h, specBacklight lit⟩, t⟩
    rw [hb] at hok
    exact hok.2.2

/-- Witness of C14: position 0x80, the text "AB", the write for the character A (the
second write) fails; no write for B is attempted. -/
theorem C14_write_text_aborts_witness :
    (WriteString (failAt 1 "bus") false 0x80 [0x41, 0x42] ⟨⟨3, 0x00⟩, []⟩).1 =
      Except.error "bus" ∧
    writes (WriteString (failAt 1 "bus") false 0x80 [0x41, 0x42] ⟨⟨3, 0x00⟩, []⟩).2.trace =
      [(3, [0x84, 0x80, 0x04, 0x00]), (3, [0x45, 0x41, 0x15, 0x11])] :=
  have w := C14_write_text_aborts (failAt 1 "bus") false false 3 [] 0x80 (by decide)
    [0x41, 0x42] (by decide) 2 "bus" (by decide)
    (by intro j h1 h2; interval_cases j; rfl) rfl
  ⟨w.1, w.2.2.1⟩

/-- C15: in every run of the program the handles released by `I2cClose` are exactly the
handles that `I2cOpen` returned: one close of the opened handle when construction
succeeded, whether or not a later write fails, and no close when construction
failed; the program exits with code 0 either way. -/
theorem C15_close_matches_open (io : Transport) (sc l64 : Bool) (argv : List (List Int)) :
    closes (main io sc l64 argv).trace =
      (match io.openResult "1" 0x27 with
        | Except.ok h => [h]
        | Except.error _ => []) ∧
    (closes (main io sc l64 argv).trace).length =
      (match io.openResult "1" 0x27 with
        | Except.ok _ => 1
        | Except.error _ => 0) ∧
    (main io sc l64 argv).exitCode = 0 := by
  have key : closes (main io sc l64 argv).trace =
      (match io.openResult "1" 0x27 with
        | Except.ok h => [h]
        | Except.error _ => []) := by
    cases hopen : io.openResult "1" 0x27 with
    | error msg =>
      rw [(main_trace_of_no_open io sc l64 argv msg hopen).1]
      rfl
    | ok h =>
      rw [main_trace_of_open io sc l64 argv h hopen]
      obtain ⟨ev, htr, hh, hp⟩ := Keeps_main_body IsWriteOrSleep io sc l64 argv
        (fun _ _ => trivial) (fun _ => trivial) ⟨⟨h, 0x00⟩, [Event.open "1" 0x27]⟩
      unfold CI2cDisplay.destruct
      simp only [htr, hh, closes_append, closes_of_writeOrSleep ev hp]
      rfl
  refine ⟨key, ?_, main_exitCode io sc l64 argv⟩
  rw [key]
  cases io.openResult "1" 0x27 <;> rfl

/-- C16: the driver never asserts the read/write line.  For every backlight state,
every transport and every input, bit 1 is 0 in every byte of every transport write
issued by `Initialize()`, `WriteText`, `WriteCommand` and `WriteData`. -/
theorem C16_read_write_never_asserted (io : Transport) (sc lit : Bool) (h : Int)
    (t : List Event) (pos : Nat) (spData : List Int) (c : Int) :
    (∃ ev, (Init io sc ⟨⟨h, specBacklight lit⟩, t⟩).2.trace = t ++ ev ∧
      ∀ e ∈ ev, ReadWriteLow e) ∧
    (∃ ev, (WriteString io sc pos spData ⟨⟨h, specBacklight lit⟩, t⟩).2.trace = t ++ ev ∧
      ∀ e ∈ ev, ReadWriteLow e) ∧
    (∃ ev, (WriteCommand io c ⟨⟨h, specBacklight lit⟩, t⟩).2.trace = t ++ ev ∧
      ∀ e ∈ ev, ReadWriteLow e) ∧
    (∃ ev, (WriteData io c ⟨⟨h, specBacklight lit⟩, t⟩).2.trace = t ++ ev ∧
      ∀ e ∈ ev, ReadWriteLow e) := by
  have hcmd : ∀ c : Int, ReadWriteLow
      (Event.write h (WriteCommand.spData (specBacklight lit) c)) :=
    fun c => readWriteLow_write _ _ (WriteCommand_spData_readWrite lit c)
  have hdat : ∀ c : Int, ReadWriteLow
      (Event.write h (WriteData.spData (specBacklight lit) c)) :=
    fun c => readWriteLow_write _ _ (WriteData_spData_readWrite lit c)
  refine ⟨?_, ?_, ?_, ?_⟩
  · exact trace_of_issues _ _ _ t
      (Issues_Init ⟨h, specBacklight lit⟩ ReadWriteLow io sc
        (readWriteLow_write _ _ (by decide)) (readWriteLow_write _ _ (by decide))
        (readWriteLow_sleep _) hcmd)
  · exact trace_of_issues _ _ _ t
      (Issues_WriteString ⟨h, specBacklight lit⟩ ReadWriteLow io sc pos spData hcmd hdat)
  · exact trace_of_issues _ _ _ t
      (Issues_WriteCommand ⟨h, specBacklight lit⟩ ReadWriteLow io c (hcmd c))
  · exact trace_of_issues _ _ _ t
      (Issues_WriteData ⟨h, specBacklight lit⟩ ReadWriteLow io c (hdat c))

/-- C17 (as stated, refuted): with the position argument "-1" the position passed to
`WriteText` is 0x7F, whose bit 7 is clear, and with "128" it is 0x00, not 128 + 0x80;
the first transport write is the command encoding of that byte.  With the argument
"9223372036854775808" and a 64 bit `long` the conversion saturates and the position is
0x7F as well. -/
theorem C17_counterexample :
    atoi true [45, 49] = -1 ∧
    main.position false true [[112], [45, 49], [49], [65]] = 0x7F ∧
    (main.position false true [[112], [45, 49], [49], [65]]).testBit 7 = false ∧
    (writes (main okTransport false true [[112], [45, 49], [49], [65]]).trace).head? =
      some (3, specTransfers 0x00 0x08 0x7F) ∧
    atoi true [49, 50, 56] = 128 ∧
    main.position false true [[112], [49, 50, 56], [49], [65]] = 0x00 ∧
    (writes (main okTransport false true [[112], [49, 50, 56], [49], [65]]).trace).head? =
      some (3, specTransfers 0x00 0x08 0x00) ∧
    main.position false true
      [[112], [57, 50, 50, 51, 51, 55, 50, 48, 51, 54, 56, 53, 52, 55, 55, 53, 56, 48, 56],
        [49], [65]] = 0x7F := by
  decide

/-- C17 (amended): for every invocation with three or more positional arguments whose
position argument has an integer value from 0 to 127, and on which the bus opens,
the backlight is on exactly when the flag is "1", and the program performs
`WriteText(position, text)` with `position = integer(positionArg) + 0x80`, a value
with bit 7 set (0x80 | offset); the first transport write is the command encoding of
that position.  Here `integer` is `atoi`, on either width of `long`. -/
theorem C17_position_from_argument (io : Transport) (sc l64 : Bool)
    (prog posArg flag text : List Int) (more : List (List Int)) (h : Int) (t : List Event)
    (hopen : io.openResult "1" 0x27 = Except.ok h)
    (hrange : 0 ≤ atoi l64 posArg ∧ atoi l64 posArg ≤ 127) :
    main.position sc l64 (prog :: posArg :: flag :: text :: more) = (atoi l64 posArg).toNat + 0x80 ∧
    (atoi l64 posArg).toNat + 0x80 = 0x80 ||| (atoi l64 posArg).toNat ∧
    ((atoi l64 posArg).toNat + 0x80).testBit 7 = true ∧
    main.body io sc l64 (prog :: posArg :: flag :: text :: more) ⟨⟨h, 0x00⟩, t⟩ =
      WriteString io sc ((atoi l64 posArg).toNat + 0x80) text
        ⟨⟨h, specBacklight (decide (cstr flag = [0x31]))⟩, t⟩ ∧
    (writes (main io sc l64 (prog :: posArg :: flag :: text :: more)).trace).head? =
      some (h, specTransfers 0x00 (specBacklight (decide (cstr flag = [0x31])))
        ((atoi l64 posArg).toNat + 0x80)) := by
  have hpos : main.position sc l64 (prog :: posArg :: flag :: text :: more) =
      (atoi l64 posArg).toNat + 0x80 := by
    rw [main_position_eq]
    simp only [List.getD_cons_succ, List.getD_cons_zero]
    omega
  have hm : (atoi l64 posArg).toNat < 128 := by omega
  have hbits := position_bits _ hm
  have hbody : ∀ t' : List Event,
      main.body io sc l64 (prog :: posArg :: flag :: text :: more) ⟨⟨h, 0x00⟩, t'⟩ =
        WriteString io sc ((atoi l64 posArg).toNat + 0x80) text
          ⟨⟨h, specBacklight (decide (cstr flag = [0x31]))⟩, t'⟩ := by
    intro t'
    rw [main_body_of_three_args, hpos, SetBackLight_snd]
  refine ⟨hpos, hbits.1, hbits.2.1, hbody t, ?_⟩
  rw [main_trace_of_open io sc l64 _ h hopen, hbody]
  obtain ⟨ev, he⟩ := WriteString_first_write io sc
    ⟨h, specBacklight (decide (cstr flag = [0x31]))⟩ ((atoi l64 posArg).toNat + 0x80) text
    [Event.open "1" 0x27]
  unfold CI2cDisplay.destruct
  simp only [he]
  rw [WriteCommand_spData_byte sc _ _ hbits.2.2]
  simp [writes, writes_append]

/-- Witness of the amended C17: the arguments "64", "1", "A" on the transport that
never fails; the position is 0xC0 and the backlight is on. -/
theorem C17_position_from_argument_witness :
    okTransport.openResult "1" 0x27 = Except.ok 3 ∧
    (0 ≤ atoi true [54, 52] ∧ atoi true [54, 52] ≤ 127) ∧
    main.position true true [[112], [54, 52], [49], [65]] = 0xC0 ∧
    (writes (main okTransport true true [[112], [54, 52], [49], [65]]).trace).head? =
      some (3, [0xCC, 0xC8, 0x0C, 0x08]) :=
  have w := C17_position_from_argument okTransport true true [112] [54, 52] [49] [65] [] 3 [] rfl
    (by decide)
  ⟨rfl, by decide, w.1, w.2.2.2.2⟩

/-- C18: the nibble encoding is lossless.  For every byte `b`, every backlight state and
both `WriteCommand` and `WriteData`, the burst `[t0, t1, t2, t3]` satisfies
`(t0 & 0xF0) | (t2 >> 4) = b` and `(t1 & 0xF0) | (t3 >> 4) = b`, so two bytes with
the same burst are equal. -/
theorem C18_encoding_lossless (io : Transport) (sc lit : Bool) (h : Int) (t : List Event)
    (b : Nat) (hb : b < 256) :
    (∃ t0 t1 t2 t3 : Nat,
      (WriteCommand io (toChar sc b) ⟨⟨h, specBacklight lit⟩, t⟩).2.trace =
        t ++ [Event.write h [t0, t1, t2, t3]] ∧
      (t0 &&& 0xF0) ||| (t2 >>> 4) = b ∧ (t1 &&& 0xF0) ||| (t3 >>> 4) = b) ∧
    (∃ t0 t1 t2 t3 : Nat,
      (WriteData io (toChar sc b) ⟨⟨h, specBacklight lit⟩, t⟩).2.trace =
        t ++ [Event.write h [t0, t1, t2, t3]] ∧
      (t0 &&& 0xF0) ||| (t2 >>> 4) = b ∧ (t1 &&& 0xF0) ||| (t3 >>> 4) = b) ∧
    (∀ b' : Nat, b' < 256 →
      WriteCommand.spData (specBacklight lit) (toChar sc b') =
        WriteCommand.spData (specBacklight lit) (toChar sc b) → b' = b) ∧
    (∀ b' : Nat, b' < 256 →
      WriteData.spData (specBacklight lit) (toChar sc b') =
        WriteData.spData (specBacklight lit) (toChar sc b) → b' = b) := by
  obtain ⟨c0, c1, c2, c3, hc, hc02, hc13⟩ := WriteCommand_spData_decode sc lit b hb
  obtain ⟨d0, d1, d2, d3, hd, hd02, hd13⟩ := WriteData_spData_decode sc lit b hb
  refine ⟨⟨c0, c1, c2, c3, ?_, hc02, hc13⟩, ⟨d0, d1, d2, d3, ?_, hd02, hd13⟩, ?_, ?_⟩
  · rw [WriteCommand_snd]
    show t ++ [Event.write h (WriteCommand.spData (specBacklight lit) (toChar sc b))] = _
    rw [hc]
  · rw [WriteData_snd]
    show t ++ [Event.write h (WriteData.spData (specBacklight lit) (toChar sc b))] = _
    rw [hd]
  · intro b' hb' heq
    obtain ⟨e0, e1, e2, e3, he, he02, _⟩ := WriteCommand_spData_decode sc lit b' hb'
    rw [heq, hc] at he
    simp only [List.cons.injEq, and_true] at he
    obtain ⟨h0, _, h2, _⟩ := he
    rw [← he02, ← hc02, h0, h2]
  · intro b' hb' heq
    obtain ⟨e0, e1, e2, e3, he, he02, _⟩ := WriteData_spData_decode sc lit b' hb'
    rw [heq, hd] at he
    simp only [List.cons.injEq, and_true] at he
    obtain ⟨h0, _, h2, _⟩ := he
    rw [← he02, ← hd02, h0, h2]

/-- Witness of C18 at the byte 0xA5, backlight on, signed `char`. -/
theorem C18_encoding_lossless_witness :
    (0xA5 : Nat) < 256 ∧
    (∃ t0 t1 t2 t3 : Nat,
      (WriteData okTransport (toChar true 0xA5) ⟨⟨3, 0x08⟩, []⟩).2.trace =
        [Event.write 3 [t0, t1, t2, t3]] ∧
      (t0 &&& 0xF0) ||| (t2 >>> 4) = 0xA5 ∧ (t1 &&& 0xF0) ||| (t3 >>> 4) = 0xA5) :=
  ⟨by decide, (C18_encoding_lossless okTransport true true 3 [] 0xA5 (by decide)).2.1⟩

/-- C19: the encoding does not depend on the signedness of `char`.  For every byte
value `u` in 0..255, `WriteCommand` and `WriteData` fill the same buffer, and make
the same call, whether `c` is the unsigned value `u` or the signed value with the
same low 8 bits (`u - 256` when `u >= 128`); and every value computed for a transfer
lies in 0..255, so the store into `unsigned char` changes nothing. -/
theorem C19_signedness_irrelevant (io : Transport) (lit : Bool) (s : Sys) (u : Nat)
    (hu : u < 256) :
    toChar false u = (u : Int) ∧
    toChar true u = (if 128 ≤ u then (u : Int) - 256 else (u : Int)) ∧
    WriteCommand.spData s.obj.cBackLight (toChar true u) =
      WriteCommand.spData s.obj.cBackLight (toChar false u) ∧
    WriteData.spData s.obj.cBackLight (toChar true u) =
      WriteData.spData s.obj.cBackLight (toChar false u) ∧
    WriteCommand io (toChar true u) s = WriteCommand io (toChar false u) s ∧
    WriteData io (toChar true u) s = WriteData io (toChar false u) s ∧
    (∀ sc : Bool, ∀ ctl ∈ ([0x04, 0x05] : List Int), ∀ shift : Nat,
      0 ≤ transferValue ctl (specBacklight lit) (toChar sc u) shift ∧
      transferValue ctl (specBacklight lit) (toChar sc u) shift ≤ 255 ∧
      ((toUChar (transferValue ctl (specBacklight lit) (toChar sc u) shift) : Nat) : Int) =
        transferValue ctl (specBacklight lit) (toChar sc u) shift ∧
      0 ≤ intAnd (toUChar (transferValue ctl (specBacklight lit) (toChar sc u) shift) : Nat)
        0xFB ∧
      intAnd (toUChar (transferValue ctl (specBacklight lit) (toChar sc u) shift) : Nat)
        0xFB ≤ 255) ∧
    (∀ (bl : Nat) (c : Int),
      WriteCommand.spData bl c =
        [toUChar (transferValue 0x04 bl c 0),
         toUChar (intAnd (toUChar (transferValue 0x04 bl c 0) : Nat) 0xFB),
         toUChar (transferValue 0x04 bl c 4),
         toUChar (intAnd (toUChar (transferValue 0x04 bl c 4) : Nat) 0xFB)] ∧
      WriteData.spData bl c =
        [toUChar (transferValue 0x05 bl c 0),
         toUChar (intAnd (toUChar (transferValue 0x05 bl c 0) : Nat) 0xFB),
         toUChar (transferValue 0x05 bl c 4),
         toUChar (intAnd (toUChar (transferValue 0x05 bl c 4) : Nat) 0xFB)]) := by
  have hf : toChar false u = (u : Int) := by
    unfold toChar
    simp only [Bool.false_and, Bool.false_eq_true, if_false]
    omega
  have ht : toChar true u = (if 128 ≤ u then (u : Int) - 256 else (u : Int)) := by
    unfold toChar
    simp only [Bool.true_and, decide_eq_true_eq]
    split_ifs <;> omega
  have hnt := nibbles_of_toChar true u hu
  have hnf := nibbles_of_toChar false u hu
  have hcmd : ∀ bl : Nat, WriteCommand.spData bl (toChar true u) =
      WriteCommand.spData bl (toChar false u) := by
    intro bl
    rw [WriteCommand_spData_eq, WriteCommand_spData_eq, hnt.1, hnt.2, hnf.1, hnf.2]
  have hdat : ∀ bl : Nat, WriteData.spData bl (toChar true u) =
      WriteData.spData bl (toChar false u) := by
    intro bl
    rw [WriteData_spData_eq, WriteData_spData_eq, hnt.1, hnt.2, hnf.1, hnf.2]
  refine ⟨hf, ht, hcmd _, hdat _, ?_, ?_, ?_, fun bl c => ⟨rfl, rfl⟩⟩
  · unfold WriteCommand
    rw [hcmd]
  · unfold WriteData
    rw [hdat]
  · intro sc ctl hctl shift
    unfold transferValue
    rw [intAnd_f0]
    have hk : toBits (intShl (toChar sc u) shift) % 256 / 16 < 16 := by omega
    have hr := transferValue_range lit _ hk ctl hctl
    exact ⟨hr.1, hr.2.1, toUChar_of_range _ hr.1 hr.2.1, hr.2.2.1, hr.2.2.2⟩

/-- Witness of C19 at the byte 0xC1: the signed value is -63. -/
theorem C19_signedness_irrelevant_witness :
    (0xC1 : Nat) < 256 ∧ toChar true 0xC1 = -63 ∧
    WriteData.spData 0x08 (-63) = WriteData.spData 0x08 0xC1 :=
  have w := C19_signedness_irrelevant okTransport true ⟨⟨3, 0x08⟩, []⟩ 0xC1 (by decide)
  ⟨by decide, w.2.1, w.2.2.2.1⟩

/-- C20: in every state reached from a successful construction by any sequence of
`Init`, `WriteString` and `SetBackLight` calls, on any transport, the backlight
byte is 0x00 or 0x08 (it has no bit outside bit 3) and the handle is the one opened;
`Init` and `WriteString` leave the backlight byte and the handle unchanged in every
state, whether they return or throw. -/
theorem C20_backlight_invariant (io : Transport) (sc : Bool) (cAddress : Nat)
    (t0 t1 : List Event) (d : CI2cDisplay)
    (hnew : CI2cDisplay.construct io cAddress t0 = (Except.ok d, t1))
    (calls : List Call) (s : Sys) (cPos : Nat) (spData : List Int) :
    ((runCalls io sc calls ⟨d, t1⟩).obj.cBackLight = 0x00 ∨
      (runCalls io sc calls ⟨d, t1⟩).obj.cBackLight = 0x08) ∧
    (runCalls io sc calls ⟨d, t1⟩).obj.cBackLight &&& 0xF7 = 0 ∧
    (runCalls io sc calls ⟨d, t1⟩).obj.iI2cFile = d.iI2cFile ∧
    (Init io sc s).2.obj.cBackLight = s.obj.cBackLight ∧
    (Init io sc s).2.obj.iI2cFile = s.obj.iI2cFile ∧
    (WriteString io sc cPos spData s).2.obj.cBackLight = s.obj.cBackLight ∧
    (WriteString io sc cPos spData s).2.obj.iI2cFile = s.obj.iI2cFile := by
  have hfresh : d.cBackLight = 0x00 := by
    unfold CI2cDisplay.construct at hnew
    cases hopen : io.openResult "1" cAddress with
    | error e =>
      rw [hopen] at hnew
      simp at hnew
    | ok hdl =>
      rw [hopen] at hnew
      simp only [Prod.mk.injEq, Except.ok.injEq] at hnew
      rw [← hnew.1]
  have hinv := runCalls_invariant io sc calls ⟨d, t1⟩ (Or.inl hfresh)
  refine ⟨hinv.1, ?_, hinv.2, ?_, ?_, ?_, ?_⟩
  · rcases hinv.1 with h | h <;> rw [h] <;> rfl
  · rw [Init_obj]
  · rw [Init_obj]
  · rw [WriteString_obj]
  · rw [WriteString_obj]

/-- Witness of C20: construction on a transport whose first write fails, then
`SetBackLight(true)`, a `WriteString` that throws, and `Init`. -/
theorem C20_backlight_invariant_witness :
    CI2cDisplay.construct (failAt 0 "bus") 0x27 [] =
      (Except.ok ⟨3, 0x00⟩, [Event.open "1" 0x27]) ∧
    ((runCalls (failAt 0 "bus") false
        [Call.setBackLight true, Call.writeString 0x80 [0x41], Call.init]
        ⟨⟨3, 0x00⟩, [Event.open "1" 0x27]⟩).obj.cBackLight = 0x00 ∨
      (runCalls (failAt 0 "bus") false
        [Call.setBackLight true, Call.writeString 0x80 [0x41], Call.init]
        ⟨⟨3, 0x00⟩, [Event.open "1" 0x27]⟩).obj.cBackLight = 0x08) ∧
    (runCalls (failAt 0 "bus") false
      [Call.setBackLight true, Call.writeString 0x80 [0x41], Call.init]
      ⟨⟨3, 0x00⟩, [Event.open "1" 0x27]⟩).obj.iI2cFile = 3 :=
  have w := C20_backlight_invariant (failAt 0 "bus") false 0x27 [] [Event.open "1" 0x27]
    ⟨3, 0x00⟩ rfl [Call.setBackLight true, Call.writeString 0x80 [0x41], Call.init]
    ⟨⟨3, 0x00⟩, []⟩ 0x80 [0x41]
  ⟨rfl, w.1, w.2.2.1⟩

end I2cDisplay
